import Mathlib

/-!
# nintengo: iNES image loader and RP2A03 audio unit

A shallow embedding of `rom.go` (package `nintengo`) and `rp2ago3/apu.go`
(package `rp2ago3`).

Conventions of the embedding:

* `uint8`, `uint16` and `uint64` values are natural numbers; where the Go code
  can wrap, the wrap is written out as `% 2 ^ w`.
* `int16` and `int64` values are integers, wrapped by `wrapInt`.
* A Go slice is a list; the `nil` slice is the empty list.
* A Go function returning `(value, error)` returns `Except String value`.
* A run-time panic (index out of range) is `none`.
-/

namespace Nintengo

/-! ## rom.go -/

/-- Nametable mirroring of a cartridge (`type Mirroring uint8`). -/
inductive Mirroring where
  | Horizontal
  | Vertical
  | FourScreen
  deriving DecidableEq, Repr

/-- Television system of a cartridge (`type Region uint8`). -/
inductive Region where
  | NTSC
  | PAL
  deriving DecidableEq, Repr

/-- The decoded cartridge image (`type ROMFile struct`). -/
structure ROMFile where
  prgBanks : Nat
  chrBanks : Nat
  mirroring : Mirroring
  battery : Bool
  trainer : Bool
  fourScreen : Bool
  vsCart : Bool
  mapper : Nat
  ramBanks : Nat
  region : Region
  trainerData : List Nat
  romBanks : List (List Nat)
  vromBanks : List (List Nat)
  deriving DecidableEq, Repr

/-- The zero value `&ROMFile{}`. -/
def ROMFile.zero : ROMFile :=
  { prgBanks := 0, chrBanks := 0, mirroring := Mirroring.Horizontal, battery := false,
    trainer := false, fourScreen := false, vsCart := false, mapper := 0, ramBanks := 0,
    region := Region.NTSC, trainerData := [], romBanks := [], vromBanks := [] }

/-- Body of the loop `for j := 0; j < 4; j++` over the flag bits of header byte 6. -/
def flagStep (byte : Nat) (romf : ROMFile) (j : Nat) : ROMFile :=
  if byte &&& (0x01 <<< j) ≠ 0 then
    match j with
    | 0 => { romf with mirroring := Mirroring.Vertical }
    | 1 => { romf with battery := true }
    | 2 => { romf with trainer := true }
    | 3 => { romf with fourScreen := true, mirroring := Mirroring.FourScreen }
    | _ => romf
  else romf

/-- Body of the loop `for ; i < 10; i++` over header bytes 4 to 9 (`switch i`). -/
def headerStep (buf : List Nat) (romf : ROMFile) (i : Nat) : ROMFile :=
  let byte := buf.getD i 0
  match i with
  | 4 => { romf with prgBanks := byte }
  | 5 => { romf with chrBanks := byte }
  | 6 =>
    let romf1 := [0, 1, 2, 3].foldl (flagStep byte) romf
    { romf1 with mapper := (byte >>> 4) &&& 0x0f }
  | 7 =>
    let romf1 := if byte &&& 0x01 ≠ 0 then { romf with vsCart := true } else romf
    { romf1 with mapper := romf1.mapper ||| (byte &&& 0xf0) }
  | 8 =>
    let romf1 := { romf with ramBanks := byte }
    if romf1.ramBanks = 0 then { romf1 with ramBanks := 1 } else romf1
  | 9 => if byte &&& 0x01 ≠ 0 then { romf with region := Region.PAL } else romf
  | _ => romf

/-- The Go slice expression `buf[i : i+offset]` (in range whenever it is evaluated). -/
def sliceAt (buf : List Nat) (i offset : Nat) : List Nat :=
  (buf.drop i).take offset

/-- The bank loops `for n := 0; n < banks; n++ { out[n] = buf[i : i+offset]; i += offset }`:
the banks read and the final value of `i`. -/
def readBanks (buf : List Nat) (offset : Nat) : Nat → Nat → List (List Nat) × Nat
  | 0, i => ([], i)
  | n + 1, i =>
    let rest := readBanks buf offset n (i + offset)
    (sliceAt buf i offset :: rest.1, rest.2)

/-- The tail of `NewROMFile` from `offset = 1024 * 16` on: the PRG bank check and loop,
then the CHR bank check and loop, with `i` the current read position. -/
def readBankData (buf : List Nat) (romf : ROMFile) (i : Nat) : Except String ROMFile :=
  if buf.length < i + (1024 * 16) * romf.prgBanks then
    Except.error "Invalid ROM: EOF in ROM bank data"
  else
    let prg := readBanks buf (1024 * 16) romf.prgBanks i
    let romf := { romf with romBanks := prg.1 }
    let i := prg.2
    if buf.length < i + (1024 * 8) * romf.chrBanks then
      Except.error "Invalid ROM: EOF in VROM bank data"
    else
      let chr := readBanks buf (1024 * 8) romf.chrBanks i
      Except.ok { romf with vromBanks := chr.1 }

/-- Go `func NewROMFile(buf []byte) (romf *ROMFile, err error)`. -/
def NewROMFile (buf : List Nat) : Except String ROMFile :=
  if buf.length < 16 then
    Except.error "Invalid ROM: Missing 16-byte header"
  else if buf.take 3 ≠ [0x4e, 0x45, 0x53] ∨ buf.getD 3 0 ≠ 0x1a then
    Except.error "Invalid ROM: Missing 'NES' constant in header"
  else
    let romf := [4, 5, 6, 7, 8, 9].foldl (headerStep buf) ROMFile.zero
    let i := 10 + 6
    if romf.trainer then
      if buf.length < i + 512 then
        Except.error "Invalid ROM: EOF in trainer data"
      else
        readBankData buf { romf with trainerData := sliceAt buf i 512 } (i + 512)
    else
      readBankData buf romf i

/-- Go `func NewROM(filename string) (rom ROM, err error)`. The file system is outside the
program: `file` is the result of `ioutil.ReadFile(filename)`. The NROM constructor
`NewNROM` is not part of these sources and is taken as a parameter. -/
def NewROM {R : Type} (NewNROM : ROMFile → R) (file : Except String (List Nat)) :
    Except String R :=
  match file with
  | Except.error e => Except.error e
  | Except.ok buf =>
    match NewROMFile buf with
    | Except.error e => Except.error e
    | Except.ok romf =>
      match romf.mapper with
      | 0 => Except.ok (NewNROM romf)
      | _ => Except.error ("Unsupported mapper type " ++ toString romf.mapper)

end Nintengo

namespace Rp2ago3

/-! ## rp2ago3/apu.go: data model -/

/-- Two's-complement wrap of an integer to a signed `w`-bit value (`int16`, `int64`). -/
def wrapInt (w : Nat) (x : Int) : Int :=
  (x + 2 ^ (w - 1)) % 2 ^ w - 2 ^ (w - 1)

/-- A Go array `[3]uint8`. -/
structure Array3 where
  r0 : Nat
  r1 : Nat
  r2 : Nat
  deriving DecidableEq, Repr

/-- A Go array `[4]uint8`. -/
structure Array4 where
  r0 : Nat
  r1 : Nat
  r2 : Nat
  r3 : Nat
  deriving DecidableEq, Repr

/-- Read `a[index]` with a run-time index: `none` is the index-out-of-range panic. -/
def Array3.get? (a : Array3) (index : Nat) : Option Nat :=
  match index with
  | 0 => some a.r0
  | 1 => some a.r1
  | 2 => some a.r2
  | _ => none

/-- Write `a[index] = value` for an index already known to be in range. -/
def Array3.set (a : Array3) (index value : Nat) : Array3 :=
  match index with
  | 0 => { a with r0 := value }
  | 1 => { a with r1 := value }
  | 2 => { a with r2 := value }
  | _ => a

/-- Read `a[index]` with a run-time index: `none` is the index-out-of-range panic. -/
def Array4.get? (a : Array4) (index : Nat) : Option Nat :=
  match index with
  | 0 => some a.r0
  | 1 => some a.r1
  | 2 => some a.r2
  | 3 => some a.r3
  | _ => none

/-- Write `a[index] = value` for an index already known to be in range. -/
def Array4.set (a : Array4) (index value : Nat) : Array4 :=
  match index with
  | 0 => { a with r0 := value }
  | 1 => { a with r1 := value }
  | 2 => { a with r2 := value }
  | 3 => { a with r3 := value }
  | _ => a

/-- The constants of `type NoiseFlag`, used as selectors by `Noise.registers`. -/
inductive NoiseFlag where
  | NoiseEnvelopeLoopLengthCounterHalt
  | NoiseConstantVolume
  | NoiseVolumeEnvelope
  | LoopNoise
  | NoisePeriod
  | NoiseLengthCounterLoad
  deriving DecidableEq, Repr

/-- The constants of `type FrameCounterFlag`, used as selectors by `FrameCounter.register`. -/
inductive FrameCounterFlag where
  | IRQInhibit
  | Mode
  deriving DecidableEq, Repr

/-- Go `EnableNoise ControlFlag = 1 << 3`. -/
def EnableNoise : Nat := 1 <<< 3

/-- Go `NoiseLengthCounterNotZero StatusFlag = 1 << 3`. -/
def NoiseLengthCounterNotZero : Nat := 1 <<< 3

/-- Go `FrameInterrupt StatusFlag = 1 << 6`. -/
def FrameInterrupt : Nat := 1 <<< 6

/-- Go `DMCInterrupt StatusFlag = 1 << 7`. -/
def DMCInterrupt : Nat := 1 <<< 7

/-- The complement `^flag` of a `uint8` constant. -/
def compl8 (flag : Nat) : Nat := 0xff ^^^ flag

/-- The struct `Registers` with the control and status bytes. -/
structure Registers where
  Control : Nat
  Status : Nat
  deriving DecidableEq, Repr

/-- The struct `Divider` with `int16` counter and period. -/
structure Divider where
  Counter : Int
  Period : Int
  deriving DecidableEq, Repr

/-- The struct `Envelope`; the embedded `Divider` is the field `Divider`. -/
structure Envelope where
  Start : Bool
  Loop : Bool
  Divider : Divider
  Counter : Nat
  deriving DecidableEq, Repr

/-- The struct `LinearCounter`. -/
structure LinearCounter where
  Control : Bool
  Halt : Bool
  ReloadValue : Nat
  Counter : Nat
  deriving DecidableEq, Repr

/-- The struct `Sequencer`. -/
structure Sequencer where
  Values : List Nat
  Index : Int
  Output : Nat
  deriving DecidableEq, Repr

/-- The struct `Pulse`. -/
structure Pulse where
  Registers : Array4
  deriving DecidableEq, Repr

/-- The struct `DMC`. -/
structure DMC where
  Registers : Array4
  deriving DecidableEq, Repr

/-- The struct `Triangle`; `LengthCounterLUT` is a `[32]uint8`. -/
structure Triangle where
  Registers : Array3
  Divider : Divider
  LinearCounter : LinearCounter
  Sequencer : Sequencer
  LengthCounter : Nat
  LengthCounterLUT : List Nat
  deriving DecidableEq, Repr

/-- The struct `Noise`; `LengthCounterLUT` is a `[32]uint8` and `PeriodLUT` a `[16]int16`. -/
structure Noise where
  Registers : Array3
  Envelope : Envelope
  Divider : Divider
  Shift : Nat
  LengthCounter : Nat
  LengthCounterLUT : List Nat
  PeriodLUT : List Int
  deriving DecidableEq, Repr

/-- The struct `FrameCounter`. -/
structure FrameCounter where
  Register : Nat
  IRQInhibit : Bool
  NumSteps : Nat
  Step : Nat
  Cycles : Nat
  deriving DecidableEq, Repr

/-- The struct `APU`. The two floating-point mixer tables `pulseLUT` and `tndLUT` and the
`Interrupt` callback (which the package never calls) are not fields of the model: the
mixer is the parameter `mix` of `APU.Sample`. -/
structure APU where
  Registers : Registers
  Pulse1 : Pulse
  Pulse2 : Pulse
  Triangle : Triangle
  Noise : Noise
  DMC : DMC
  FrameCounter : FrameCounter
  Cycles : Nat
  TargetCycles : Nat
  HipassStrong : Int
  HipassWeak : Int
  deriving DecidableEq, Repr

/-! ## rp2ago3/apu.go: construction and reset -/

/-- The length-counter table literal of `NewAPU` (shared by noise and triangle). -/
def lengthCounterTable : List Nat :=
  [0x0a, 0xfe, 0x14, 0x02,
   0x28, 0x04, 0x50, 0x06,
   0xa0, 0x08, 0x3c, 0x0a,
   0x0e, 0x0c, 0x1a, 0x0e,
   0x0c, 0x10, 0x18, 0x12,
   0x30, 0x14, 0x60, 0x16,
   0xc0, 0x18, 0x48, 0x1a,
   0x10, 0x1c, 0x20, 0x1e]

/-- The NTSC noise period table literal of `NewAPU`. -/
def noisePeriodTable : List Int :=
  [4, 8, 16, 32, 64, 96, 128, 160, 202,
   254, 380, 508, 762, 1016, 2034, 4068]

/-- Go `func NewAPU(interrupt func(bool)) *APU`: every field not named in the literal has
its zero value. -/
def NewAPU : APU :=
  { Registers := { Control := 0, Status := 0 },
    Pulse1 := { Registers := { r0 := 0, r1 := 0, r2 := 0, r3 := 0 } },
    Pulse2 := { Registers := { r0 := 0, r1 := 0, r2 := 0, r3 := 0 } },
    Triangle :=
      { Registers := { r0 := 0, r1 := 0, r2 := 0 },
        Divider := { Counter := 0, Period := 0 },
        LinearCounter := { Control := false, Halt := false, ReloadValue := 0, Counter := 0 },
        Sequencer := { Values := [], Index := 0, Output := 0 },
        LengthCounter := 0,
        LengthCounterLUT := lengthCounterTable },
    Noise :=
      { Registers := { r0 := 0, r1 := 0, r2 := 0 },
        Envelope :=
          { Start := false, Loop := false, Divider := { Counter := 0, Period := 0 },
            Counter := 0 },
        Divider := { Counter := 0, Period := 0 },
        Shift := 0,
        LengthCounter := 0,
        LengthCounterLUT := lengthCounterTable,
        PeriodLUT := noisePeriodTable },
    DMC := { Registers := { r0 := 0, r1 := 0, r2 := 0, r3 := 0 } },
    FrameCounter := { Register := 0, IRQInhibit := false, NumSteps := 0, Step := 0, Cycles := 0 },
    Cycles := 0,
    TargetCycles := 1789773 / 44100,
    HipassStrong := 0,
    HipassWeak := 0 }

/-- Go `func (apu *APU) Reset()`. -/
def APU.Reset (apu : APU) : APU :=
  { apu with
    Registers := { Control := 0x00, Status := 0x00 },
    Noise := { apu.Noise with Shift := 0x0001 } }

/-! ## Dividers, envelope, linear counter, sequencer -/

/-- Go `func (divider *Divider) Reload()`. -/
def Divider.Reload (divider : Divider) : Divider :=
  { divider with Counter := divider.Period }

/-- Go `func (divider *Divider) Clock() (output bool)`. -/
def Divider.Clock (divider : Divider) : Divider × Bool :=
  let divider := { divider with Counter := wrapInt 16 (divider.Counter - 1) }
  if divider.Counter = 0 then (divider.Reload, true) else (divider, false)

/-- Go `func (envelope *Envelope) Clock() (output uint8)`; `output` is never assigned. -/
def Envelope.Clock (envelope : Envelope) : Envelope × Nat :=
  if envelope.Start then
    let envelope := { envelope with Start := false }
    let envelope := { envelope with Counter := 0x0f }
    ({ envelope with Divider := envelope.Divider.Reload }, 0)
  else
    let clocked := envelope.Divider.Clock
    let envelope := { envelope with Divider := clocked.1 }
    if clocked.2 then
      if envelope.Counter > 0 then
        ({ envelope with Counter := envelope.Counter - 1 }, 0)
      else if envelope.Loop then
        ({ envelope with Counter := 0x0f }, 0)
      else (envelope, 0)
    else (envelope, 0)

/-- Go `func (linearCounter *LinearCounter) Clock() (counter uint8)`. -/
def LinearCounter.Clock (linearCounter : LinearCounter) : LinearCounter × Nat :=
  let linearCounter :=
    if linearCounter.Halt then
      { linearCounter with Counter := linearCounter.ReloadValue }
    else if linearCounter.Counter > 0 then
      { linearCounter with Counter := linearCounter.Counter - 1 }
    else linearCounter
  let linearCounter :=
    if ¬ linearCounter.Control then { linearCounter with Halt := false } else linearCounter
  (linearCounter, linearCounter.Counter)

/-- Go `func (linearCounter *LinearCounter) Reset()`. -/
def LinearCounter.Reset (linearCounter : LinearCounter) : LinearCounter :=
  { linearCounter with Halt := false, Counter := 0, ReloadValue := 0 }

/-! ## Frame counter -/

/-- Go `func (frameCounter *FrameCounter) Reset()`. -/
def FrameCounter.Reset (frameCounter : FrameCounter) : FrameCounter :=
  { frameCounter with Cycles := 0, Step := 0 }

/-- Go `func (frameCounter *FrameCounter) register(flag, state...)`, the read form (no
`state` argument), which is the only form the package calls. -/
def FrameCounter.register (frameCounter : FrameCounter) (flag : FrameCounterFlag) : Nat :=
  match flag with
  | FrameCounterFlag.Mode =>
    match frameCounter.Register >>> 7 with
    | 0 => 4
    | 1 => 5
    | _ => 0
  | FrameCounterFlag.IRQInhibit => (frameCounter.Register >>> 6) &&& 0x01

/-- Go `func (frameCounter *FrameCounter) Store(value uint8) (oldValue uint8, execute bool)`.
The source assigns `oldValue` and `Register` twice in a row, so the `oldValue` returned
is read from `Register` after the first assignment. -/
def FrameCounter.Store (frameCounter : FrameCounter) (value : Nat) :
    FrameCounter × Nat × Bool :=
  let frameCounter := { frameCounter with Register := value }
  let oldValue := frameCounter.Register
  let frameCounter := { frameCounter with Register := value }
  let frameCounter := frameCounter.Reset
  if frameCounter.register FrameCounterFlag.Mode = 5 then
    (frameCounter, oldValue, true)
  else
    (frameCounter, oldValue, false)

/-- Go `func (frameCounter *FrameCounter) Clock() (changed bool, newStep uint8)`; `Cycles`
is a `uint16` and `Step` a `uint8`. -/
def FrameCounter.Clock (frameCounter : FrameCounter) : FrameCounter × Bool × Nat :=
  let frameCounter := { frameCounter with Cycles := (frameCounter.Cycles + 1) % 2 ^ 16 }
  let oldStep := frameCounter.Step
  let frameCounter :=
    if frameCounter.Cycles = 3729 * 2 ∨ frameCounter.Cycles = 7457 * 2 ∨
        frameCounter.Cycles = 11186 * 2 ∨ frameCounter.Cycles = 14915 * 2 ∨
        frameCounter.Cycles = 18641 * 2 then
      { frameCounter with Step := (frameCounter.Step + 1) % 2 ^ 8 }
    else frameCounter
  let newStep := frameCounter.Step
  if oldStep ≠ newStep then (frameCounter, true, newStep) else (frameCounter, false, newStep)

/-! ## Pulse, triangle and DMC channels -/

/-- Go `func (pulse *Pulse) Store(index uint16, value uint8) (oldValue uint8)`. -/
def Pulse.Store (pulse : Pulse) (index value : Nat) : Option (Pulse × Nat) :=
  match pulse.Registers.get? index with
  | none => none
  | some oldValue => some ({ pulse with Registers := pulse.Registers.set index value }, oldValue)

/-- Go `func (pulse *Pulse) Sample() (sample int16)`. -/
def Pulse.Sample (_pulse : Pulse) : Int := 0

/-- Go `func (triangle *Triangle) Store(index uint16, value uint8) (oldValue uint8)`. -/
def Triangle.Store (triangle : Triangle) (index value : Nat) : Option (Triangle × Nat) :=
  match triangle.Registers.get? index with
  | none => none
  | some oldValue =>
    some ({ triangle with Registers := triangle.Registers.set index value }, oldValue)

/-- Go `func (triangle *Triangle) Sample() (sample int16)`. -/
def Triangle.Sample (_triangle : Triangle) : Int := 0

/-- Go `func (dmc *DMC) Store(index uint16, value uint8) (oldValue uint8)`. -/
def DMC.Store (dmc : DMC) (index value : Nat) : Option (DMC × Nat) :=
  match dmc.Registers.get? index with
  | none => none
  | some oldValue => some ({ dmc with Registers := dmc.Registers.set index value }, oldValue)

/-- Go `func (dmc *DMC) Sample() (sample int16)`. -/
def DMC.Sample (_dmc : DMC) : Int := 0

/-! ## Noise channel -/

/-- Go `func (noise *Noise) registers(flag NoiseFlag, state ...uint8) (value uint8)`, the
read form (no `state` argument), which is the only form the package calls. -/
def Noise.registers (noise : Noise) (flag : NoiseFlag) : Nat :=
  match flag with
  | NoiseFlag.NoiseEnvelopeLoopLengthCounterHalt => (noise.Registers.r0 >>> 5) &&& 0x01
  | NoiseFlag.NoiseConstantVolume => (noise.Registers.r0 >>> 4) &&& 0x01
  | NoiseFlag.NoiseVolumeEnvelope => noise.Registers.r0 &&& 0x0f
  | NoiseFlag.LoopNoise => noise.Registers.r1 >>> 7
  | NoiseFlag.NoisePeriod => noise.Registers.r1 &&& 0x0f
  | NoiseFlag.NoiseLengthCounterLoad => noise.Registers.r2 >>> 3

/-- Go `func (noise *Noise) Store(index uint16, value uint8) (oldValue uint8)`. -/
def Noise.Store (noise : Noise) (index value : Nat) : Option (Noise × Nat) :=
  match noise.Registers.get? index with
  | none => none
  | some oldValue =>
    let noise := { noise with Registers := noise.Registers.set index value }
    match index with
    | 0 =>
      let envelope :=
        { noise.Envelope with Counter := noise.registers NoiseFlag.NoiseVolumeEnvelope }
      let envelope :=
        { envelope with Loop := decide (noise.registers NoiseFlag.LoopNoise ≠ 0) }
      some ({ noise with Envelope := envelope }, oldValue)
    | 1 =>
      match noise.PeriodLUT[noise.registers NoiseFlag.NoisePeriod]? with
      | none => none
      | some period =>
        let divider := { noise.Divider with Period := period }
        some ({ noise with Divider := divider.Reload }, oldValue)
    | 2 =>
      match noise.LengthCounterLUT[noise.registers NoiseFlag.NoiseLengthCounterLoad]? with
      | none => none
      | some lengthCounter => some ({ noise with LengthCounter := lengthCounter }, oldValue)
    | _ => some (noise, oldValue)

/-- Go `func (noise *Noise) ClockLengthCounter()`. -/
def Noise.ClockLengthCounter (noise : Noise) : Noise :=
  if noise.registers NoiseFlag.NoiseEnvelopeLoopLengthCounterHalt ≠ 0 ∧
      noise.LengthCounter > 0 then
    { noise with LengthCounter := noise.LengthCounter - 1 }
  else noise

/-- Go `func (noise *Noise) ClockEnvelope()`. -/
def Noise.ClockEnvelope (noise : Noise) : Noise :=
  { noise with Envelope := noise.Envelope.Clock.1 }

/-- Go `func (noise *Noise) ClockDivider()`; `Shift` is a `uint16`. -/
def Noise.ClockDivider (noise : Noise) : Noise :=
  let clocked := noise.Divider.Clock
  let noise := { noise with Divider := clocked.1 }
  if clocked.2 then
    let tmp := if noise.registers NoiseFlag.LoopNoise = 0 then 5 else 1
    let bit := (noise.Shift >>> tmp) &&& 0x0001
    let feedback := (noise.Shift &&& 0x0001) ^^^ bit
    { noise with Shift := ((noise.Shift >>> 1) ||| ((feedback <<< 14) % 2 ^ 16)) % 2 ^ 16 }
  else noise

/-- Go `func (noise *Noise) Sample() (sample int16)`; the conversion `int16(x)` of a
`uint8` keeps the value. -/
def Noise.Sample (noise : Noise) : Int :=
  if noise.Shift &&& 0x0001 = 0 ∧ noise.LengthCounter ≠ 0 then
    if noise.registers NoiseFlag.NoiseConstantVolume = 0 then
      (noise.Envelope.Counter : Int)
    else
      (noise.registers NoiseFlag.NoiseVolumeEnvelope : Int)
  else 0

/-! ## The APU -/

/-- Go `func (apu *APU) control(flag ControlFlag, state ...bool) (value bool)`, the read
form (no `state` argument), which is the only form the package calls. -/
def APU.control (apu : APU) (flag : Nat) : Bool :=
  decide (apu.Registers.Control &&& flag ≠ 0)

/-- Go `func (apu *APU) status(flag StatusFlag, state ...bool) (value bool)`, the read form. -/
def APU.status (apu : APU) (flag : Nat) : Bool :=
  decide (apu.Registers.Status &&& flag ≠ 0)

/-- Go `func (apu *APU) Fetch(address uint16) (value uint8)`. -/
def APU.Fetch (apu : APU) (address : Nat) : APU × Nat :=
  match address with
  | 0x4015 =>
    let value := apu.Registers.Status
    ({ apu with
       Registers := { apu.Registers with Status := apu.Registers.Status &&& compl8 FrameInterrupt } },
     value)
  | _ => (apu, 0)

/-- The statement `apu.Noise.ClockEnvelope()`. -/
def APU.clockNoiseEnvelope (apu : APU) : APU :=
  { apu with Noise := apu.Noise.ClockEnvelope }

/-- The statement `apu.Triangle.LinearCounter.Clock()`. -/
def APU.clockLinearCounter (apu : APU) : APU :=
  { apu with Triangle := { apu.Triangle with LinearCounter := apu.Triangle.LinearCounter.Clock.1 } }

/-- The statement `apu.Noise.ClockLengthCounter()`. -/
def APU.clockNoiseLengthCounter (apu : APU) : APU :=
  { apu with Noise := apu.Noise.ClockLengthCounter }

/-- The statement `switch step { case 1: ... case 5: ... }` of `ExecuteFrameCounter`. -/
def APU.switchStep (apu : APU) (step : Nat) : APU :=
  match step with
  | 1 => apu.clockNoiseEnvelope.clockLinearCounter
  | 2 => apu.clockNoiseEnvelope.clockLinearCounter.clockNoiseLengthCounter
  | 3 => apu.clockNoiseEnvelope.clockLinearCounter
  | 4 =>
    if apu.FrameCounter.NumSteps = 4 then
      let apu := apu.clockNoiseEnvelope.clockLinearCounter.clockNoiseLengthCounter
      if ¬ apu.FrameCounter.IRQInhibit then
        { apu with
          Registers := { apu.Registers with Status := apu.Registers.Status ||| FrameInterrupt } }
      else apu
    else apu
  | 5 =>
    if apu.FrameCounter.NumSteps = 5 then
      apu.clockNoiseEnvelope.clockLinearCounter.clockNoiseLengthCounter
    else apu
  | _ => apu

/-- Go `func (apu *APU) ExecuteFrameCounter()`. -/
def APU.ExecuteFrameCounter (apu : APU) : APU :=
  let clocked := apu.FrameCounter.Clock
  let apu := { apu with FrameCounter := clocked.1 }
  let changed := clocked.2.1
  let step := clocked.2.2
  if changed then
    let apu := apu.switchStep step
    if step = apu.FrameCounter.NumSteps then
      { apu with FrameCounter := apu.FrameCounter.Reset }
    else apu
  else apu

/-- Go `func (apu *APU) Store(address uint16, value uint8) (oldValue uint8)`. -/
def APU.Store (apu : APU) (address value : Nat) : Option (APU × Nat) :=
  if address ≥ 0x4000 ∧ address ≤ 0x4003 then
    match apu.Pulse1.Store (address - 0x4000) value with
    | none => none
    | some (pulse, oldValue) => some ({ apu with Pulse1 := pulse }, oldValue)
  else if address ≥ 0x4004 ∧ address ≤ 0x4007 then
    match apu.Pulse2.Store (address - 0x4004) value with
    | none => none
    | some (pulse, oldValue) => some ({ apu with Pulse2 := pulse }, oldValue)
  else if address ≥ 0x4008 ∧ address ≤ 0x400b then
    let index := address - 0x4008
    let storeTriangle (index : Nat) : Option (APU × Nat) :=
      match apu.Triangle.Store index value with
      | none => none
      | some (triangle, oldValue) => some ({ apu with Triangle := triangle }, oldValue)
    match address with
    | 0x4009 => some (apu, 0)
    | 0x400b => storeTriangle (index - 1)
    | 0x400a => storeTriangle (index - 1)
    | 0x4008 => storeTriangle index
    | _ => some (apu, 0)
  else if address ≥ 0x400c ∧ address ≤ 0x400f then
    let index := address - 0x400c
    let storeNoise (index : Nat) : Option (APU × Nat) :=
      match apu.Noise.Store index value with
      | none => none
      | some (noise, oldValue) => some ({ apu with Noise := noise }, oldValue)
    match address with
    | 0x400d => some (apu, 0)
    | 0x400f => storeNoise (index - 1)
    | 0x400e => storeNoise (index - 1)
    | 0x400c => storeNoise index
    | _ => some (apu, 0)
  else if address ≥ 0x4010 ∧ address ≤ 0x4013 then
    match apu.DMC.Store (address - 0x4010) value with
    | none => none
    | some (dmc, oldValue) => some ({ apu with DMC := dmc }, oldValue)
  else if address = 0x4015 then
    let oldValue := apu.Registers.Control
    let apu := { apu with Registers := { apu.Registers with Control := value } }
    let apu :=
      { apu with
        Registers := { apu.Registers with Status := apu.Registers.Status &&& compl8 DMCInterrupt } }
    if ¬ apu.control EnableNoise then
      some ({ apu with Noise := { apu.Noise with LengthCounter := 0 } }, oldValue)
    else some (apu, oldValue)
  else if address = 0x4017 then
    let stored := apu.FrameCounter.Store value
    let apu := { apu with FrameCounter := stored.1 }
    if stored.2.2 then some (apu.ExecuteFrameCounter, stored.2.1) else some (apu, stored.2.1)
  else some (apu, 0)

/-- Go `func (apu *APU) hipassStrong(s int16) int16`; the accumulator is an `int64`. -/
def APU.hipassStrong (apu : APU) (s : Int) : APU × Int :=
  let HiPassStrong : Int := 225574
  let acc := wrapInt 64 (apu.HipassStrong +
    (wrapInt 64 (wrapInt 64 (wrapInt 64 (s * 2 ^ 16) - (apu.HipassStrong >>> 16)) * HiPassStrong)
      >>> 16))
  ({ apu with HipassStrong := acc }, wrapInt 16 (wrapInt 64 (s - (acc >>> 32))))

/-- Go `func (apu *APU) hipassWeak(s int16) int16`; the accumulator is an `int64`. -/
def APU.hipassWeak (apu : APU) (s : Int) : APU × Int :=
  let HiPassWeak : Int := 57593
  let acc := wrapInt 64 (apu.HipassWeak +
    (wrapInt 64 (wrapInt 64 (wrapInt 64 (s * 2 ^ 16) - (apu.HipassWeak >>> 16)) * HiPassWeak)
      >>> 16))
  ({ apu with HipassWeak := acc }, wrapInt 16 (wrapInt 64 (s - (acc >>> 32))))

/-- Go `func (apu *APU) Sample() (sample int16)`. The floating-point part is the parameter
`mix`: `mix p t` stands for `int16((apu.pulseLUT[p] + apu.tndLUT[t]) * 40000)`. The
tables have 31 and 203 entries, and an index outside them is the run-time panic. -/
def APU.Sample (mix : Nat → Nat → Int) (apu : APU) : Option (APU × Int) :=
  let p := wrapInt 16 (apu.Pulse1.Sample + apu.Pulse2.Sample)
  let t := wrapInt 16 (3 * apu.Triangle.Sample + 2 * apu.Noise.Sample + apu.DMC.Sample)
  if 0 ≤ p ∧ p < 31 ∧ 0 ≤ t ∧ t < 203 then
    let sample := wrapInt 16 (mix p.toNat t.toNat)
    let strong := apu.hipassStrong sample
    let weak := strong.1.hipassWeak strong.2
    some weak
  else none

/-- Go `func (apu *APU) Execute() (sample int16, haveSample bool)`; `Cycles` is a `uint64`. -/
def APU.Execute (mix : Nat → Nat → Int) (apu : APU) : Option (APU × Int × Bool) :=
  let apu := apu.ExecuteFrameCounter
  let apu := if apu.control EnableNoise then { apu with Noise := apu.Noise.ClockDivider } else apu
  let apu := { apu with Cycles := (apu.Cycles + 1) % 2 ^ 64 }
  if apu.Cycles = apu.TargetCycles then
    match apu.Sample mix with
    | none => none
    | some (apu, sample) =>
      some ({ apu with Cycles := 0, TargetCycles := apu.TargetCycles ^^^ 0x1 }, sample, true)
  else some (apu, 0, false)

end Rp2ago3

namespace Nintengo

/-! ## Sample images -/

/-- A 25104-byte image: header (one PRG bank, one CHR bank, flags 0x1d, mapper bytes
0x1d and 0x20, PAL), a trainer of 1s, a PRG bank of 2s and a CHR bank of 3s. -/
def sampleImage : List Nat :=
  [0x4e, 0x45, 0x53, 0x1a, 1, 1, 0x1d, 0x20, 0, 1, 0, 0, 0, 0, 0, 0] ++
    (List.replicate 512 1 ++ (List.replicate 16384 2 ++ List.replicate 8192 3))

/-- The ROM file decoded from `sampleImage`. -/
def sampleROMFile : ROMFile :=
  { prgBanks := 1, chrBanks := 1, mirroring := Mirroring.FourScreen, battery := false,
    trainer := true, fourScreen := true, vsCart := false, mapper := 0x21, ramBanks := 1,
    region := Region.PAL,
    trainerData := (sampleImage.drop 16).take 512,
    romBanks := [(sampleImage.drop 528).take 16384],
    vromBanks := [(sampleImage.drop 16912).take 8192] }

/-- A header-only image (no banks, no trainer) with flags 0x19 and mapper bytes 0x19 and
0x20: vertical and four-screen bits set, mapper 0x21. -/
def headerImage : List Nat :=
  [0x4e, 0x45, 0x53, 0x1a, 0, 0, 0x19, 0x20, 0, 0, 0, 0, 0, 0, 0, 0]

/-- The ROM file decoded from `headerImage`. -/
def headerROMFile : ROMFile :=
  { prgBanks := 0, chrBanks := 0, mirroring := Mirroring.FourScreen, battery := false,
    trainer := false, fourScreen := true, vsCart := false, mapper := 0x21, ramBanks := 1,
    region := Region.NTSC, trainerData := [], romBanks := [], vromBanks := [] }

/-- A header-only image of mapper 0 (NROM) with vertical mirroring. -/
def nromImage : List Nat :=
  [0x4e, 0x45, 0x53, 0x1a, 0, 0, 0x01, 0x00, 0, 0, 0, 0, 0, 0, 0, 0]

/-- The ROM file decoded from `nromImage`. -/
def nromROMFile : ROMFile :=
  { prgBanks := 0, chrBanks := 0, mirroring := Mirroring.Vertical, battery := false,
    trainer := false, fourScreen := false, vsCart := false, mapper := 0, ramBanks := 1,
    region := Region.NTSC, trainerData := [], romBanks := [], vromBanks := [] }

end Nintengo

namespace Rp2ago3

/-! ## Runs and sample states -/

/-- A noise channel of a new APU whose timer fires on every clock (divider period 1,
counter 1), with `r1` in the $400E register and `shift` in the shift register. -/
def firingNoise (r1 shift : Nat) : Noise :=
  { NewAPU.Noise with
    Registers := { r0 := 0, r1 := r1, r2 := 0 },
    Divider := { Counter := 1, Period := 1 },
    Shift := shift }

/-- The APU after `n` successive calls of `Execute` (samples dropped); `none` if one of
the calls panics. -/
def APU.ExecuteN (mix : Nat → Nat → Int) : Nat → APU → Option APU
  | 0, apu => some apu
  | n + 1, apu =>
    match apu.Execute mix with
    | none => none
    | some (apu, _, _) => APU.ExecuteN mix n apu

/-- The frame counter after `n` successive calls of `Clock`. -/
def FrameCounter.ClockN : Nat → FrameCounter → FrameCounter
  | 0, frameCounter => frameCounter
  | n + 1, frameCounter => (FrameCounter.ClockN n frameCounter).Clock.1

/-- The APU states reachable from a newly constructed and reset APU by calls of `Store`
(with a `uint16` address and a `uint8` value), `Fetch` and `Execute` that do not panic. -/
inductive Reachable (mix : Nat → Nat → Int) : APU → Prop where
  | init : Reachable mix NewAPU.Reset
  | store {apu apu1 : APU} {oldValue : Nat} (address value : Nat) :
      Reachable mix apu → address < 65536 → value < 256 →
      apu.Store address value = some (apu1, oldValue) → Reachable mix apu1
  | fetch {apu : APU} (address : Nat) :
      Reachable mix apu → address < 65536 → Reachable mix (apu.Fetch address).1
  | execute {apu apu1 : APU} {sample : Int} {haveSample : Bool} :
      Reachable mix apu → apu.Execute mix = some (apu1, sample, haveSample) →
      Reachable mix apu1

/-- A property of APU states that every elementary state change made by `Store`, `Fetch`
and `Execute` keeps. -/
structure StepInvariant (P : APU → Prop) : Prop where
  frameCounter : ∀ (a : APU) (fc : FrameCounter), P a → P { a with FrameCounter := fc }
  envelope : ∀ a : APU, P a → P a.clockNoiseEnvelope
  linearCounter : ∀ a : APU, P a → P a.clockLinearCounter
  lengthCounter : ∀ a : APU, P a → P a.clockNoiseLengthCounter
  frameInterrupt : ∀ a : APU, P a →
    P { a with Registers := { a.Registers with Status := a.Registers.Status ||| FrameInterrupt } }
  noiseDivider : ∀ a : APU, P a → P { a with Noise := a.Noise.ClockDivider }
  cycles : ∀ (a : APU) (c t : Nat), P a → P { a with Cycles := c, TargetCycles := t }
  hipass : ∀ (a : APU) (x y : Int), P a → P { a with HipassStrong := x, HipassWeak := y }
  pulse1 : ∀ (a : APU) (p : Pulse), P a → P { a with Pulse1 := p }
  pulse2 : ∀ (a : APU) (p : Pulse), P a → P { a with Pulse2 := p }
  triangle : ∀ (a : APU) (r : Array3), P a →
    P { a with Triangle := { a.Triangle with Registers := r } }
  dmc : ∀ (a : APU) (d : DMC), P a → P { a with DMC := d }
  noiseStore : ∀ (a : APU) (index value : Nat) (n : Noise) (oldValue : Nat), P a →
    value < 256 → a.Noise.Store index value = some (n, oldValue) → P { a with Noise := n }
  control : ∀ (a : APU) (v : Nat), P a → v < 256 →
    P { a with
        Registers := { Control := v, Status := a.Registers.Status &&& compl8 DMCInterrupt } }
  lengthCounterZero : ∀ a : APU, P a →
    P { a with Noise := { a.Noise with LengthCounter := 0 } }
  fetchStatus : ∀ a : APU, P a →
    P { a with
        Registers := { a.Registers with Status := a.Registers.Status &&& compl8 FrameInterrupt } }

/-- The reset APU after `Store(0x400F, 0x08)`: the noise length counter holds entry 1 of
the length table. -/
def lengthLoadedAPU : APU :=
  { NewAPU.Reset with
    Noise :=
      { NewAPU.Reset.Noise with
        Registers := { r0 := 0, r1 := 0, r2 := 0x08 },
        LengthCounter := 0xfe } }

/-- A reset APU whose frame counter stands one cycle before its first step. -/
def stepDueAPU : APU :=
  { NewAPU.Reset with FrameCounter := { NewAPU.Reset.FrameCounter with Cycles := 7457 } }

/-- A new APU whose status register holds the frame interrupt flag and bit 0. -/
def irqPendingAPU : APU :=
  { NewAPU with Registers := { Control := 0x00, Status := 0x41 } }

/-- A noise channel of a new APU with `r0` in the $400C register and the given length
counter. -/
def countingNoise (r0 lengthCounter : Nat) : Noise :=
  { NewAPU.Noise with
    Registers := { r0 := r0, r1 := 0, r2 := 0 },
    LengthCounter := lengthCounter }

/-- The value that the body of `if noise.Divider.Clock() { ... }` in `Noise.ClockDivider`
assigns to `noise.Shift`. -/
def Noise.updatedShift (noise : Noise) : Nat :=
  let tmp := if noise.registers NoiseFlag.LoopNoise = 0 then 5 else 1
  let bit := (noise.Shift >>> tmp) &&& 0x0001
  let feedback := (noise.Shift &&& 0x0001) ^^^ bit
  ((noise.Shift >>> 1) ||| ((feedback <<< 14) % 2 ^ 16)) % 2 ^ 16

/-- The APU states that an APU created by `NewAPU` can be in: those obtained from
`NewAPU` by calls of `Reset`, `Store` (with a `uint16` address and a `uint8` value),
`Fetch` and `Execute` that do not panic. -/
inductive Created (mix : Nat → Nat → Int) : APU → Prop where
  | new : Created mix NewAPU
  | reset {apu : APU} : Created mix apu → Created mix apu.Reset
  | store {apu apu1 : APU} {oldValue : Nat} (address value : Nat) :
      Created mix apu → address < 65536 → value < 256 →
      apu.Store address value = some (apu1, oldValue) → Created mix apu1
  | fetch {apu : APU} (address : Nat) :
      Created mix apu → address < 65536 → Created mix (apu.Fetch address).1
  | execute {apu apu1 : APU} {sample : Int} {haveSample : Bool} :
      Created mix apu → apu.Execute mix = some (apu1, sample, haveSample) →
      Created mix apu1

/-- The reset APU after `Store(0x4015, 0x08)`: the noise channel is enabled. -/
def noiseEnabledAPU : APU :=
  { NewAPU.Reset with Registers := { Control := 0x08, Status := 0x00 } }

end Rp2ago3

/-! # Theorems -/

namespace Nintengo

/-! ## Header decoding -/

theorem and_two_pow_ne_zero_iff (b k : Nat) : b &&& 2 ^ k ≠ 0 ↔ b.testBit k = true := by
  constructor
  · intro h
    by_contra hb
    apply h
    apply Nat.eq_of_testBit_eq
    intro i
    simp only [Nat.testBit_and, Nat.testBit_two_pow, Nat.zero_testBit]
    by_cases hki : k = i
    · subst hki
      simp [hb]
    · simp [hki]
  · intro hb h
    have := congrArg (fun x => Nat.testBit x k) h
    simp [Nat.testBit_two_pow, hb] at this

theorem flagStep_testBit (byte : Nat) (romf : ROMFile) (j : Nat) :
    flagStep byte romf j =
      if byte.testBit j = true then
        match j with
        | 0 => { romf with mirroring := Mirroring.Vertical }
        | 1 => { romf with battery := true }
        | 2 => { romf with trainer := true }
        | 3 => { romf with fourScreen := true, mirroring := Mirroring.FourScreen }
        | _ => romf
      else romf := by
  unfold flagStep
  rw [Nat.one_shiftLeft]
  exact if_congr (and_two_pow_ne_zero_iff byte j) rfl rfl

theorem and_one_ne_zero_iff (b : Nat) : b &&& 0x01 ≠ 0 ↔ b.testBit 0 = true :=
  and_two_pow_ne_zero_iff b 0

theorem flags_fold (byte : Nat) (romf : ROMFile) :
    [0, 1, 2, 3].foldl (flagStep byte) romf =
      { romf with
        mirroring :=
          if byte.testBit 3 then Mirroring.FourScreen
          else if byte.testBit 0 then Mirroring.Vertical
          else romf.mirroring,
        battery := romf.battery || byte.testBit 1,
        trainer := romf.trainer || byte.testBit 2,
        fourScreen := romf.fourScreen || byte.testBit 3 } := by
  simp only [List.foldl, flagStep_testBit]
  cases byte.testBit 0 <;> cases byte.testBit 1 <;> cases byte.testBit 2 <;>
    cases byte.testBit 3 <;> simp

theorem headerStep_4 (buf : List Nat) (romf : ROMFile) :
    headerStep buf romf 4 = { romf with prgBanks := buf.getD 4 0 } := rfl

theorem headerStep_5 (buf : List Nat) (romf : ROMFile) :
    headerStep buf romf 5 = { romf with chrBanks := buf.getD 5 0 } := rfl

theorem headerStep_6 (buf : List Nat) (romf : ROMFile) :
    headerStep buf romf 6 =
      { romf with
        mirroring :=
          if (buf.getD 6 0).testBit 3 then Mirroring.FourScreen
          else if (buf.getD 6 0).testBit 0 then Mirroring.Vertical
          else romf.mirroring,
        battery := romf.battery || (buf.getD 6 0).testBit 1,
        trainer := romf.trainer || (buf.getD 6 0).testBit 2,
        fourScreen := romf.fourScreen || (buf.getD 6 0).testBit 3,
        mapper := (buf.getD 6 0 >>> 4) &&& 0x0f } := by
  show ({ ([0, 1, 2, 3].foldl (flagStep (buf.getD 6 0)) romf) with
    mapper := (buf.getD 6 0 >>> 4) &&& 0x0f } : ROMFile) = _
  rw [flags_fold]

theorem headerStep_7 (buf : List Nat) (romf : ROMFile) :
    headerStep buf romf 7 =
      { romf with
        vsCart := romf.vsCart || (buf.getD 7 0).testBit 0,
        mapper := romf.mapper ||| (buf.getD 7 0 &&& 0xf0) } := by
  simp only [headerStep]
  rw [if_congr (and_one_ne_zero_iff (buf.getD 7 0)) rfl rfl]
  cases (buf.getD 7 0).testBit 0 <;> simp

theorem headerStep_8 (buf : List Nat) (romf : ROMFile) :
    headerStep buf romf 8 =
      { romf with ramBanks := if buf.getD 8 0 = 0 then 1 else buf.getD 8 0 } := by
  show (if buf.getD 8 0 = 0 then
      ({ ({ romf with ramBanks := buf.getD 8 0 } : ROMFile) with ramBanks := 1 } : ROMFile)
    else { romf with ramBanks := buf.getD 8 0 }) = _
  by_cases h : buf.getD 8 0 = 0
  · rw [if_pos h, if_pos h]
  · rw [if_neg h, if_neg h]

theorem headerStep_9 (buf : List Nat) (romf : ROMFile) :
    headerStep buf romf 9 =
      { romf with
        region := if (buf.getD 9 0).testBit 0 then Region.PAL else romf.region } := by
  simp only [headerStep]
  rw [if_congr (and_one_ne_zero_iff (buf.getD 9 0)) rfl rfl]
  cases (buf.getD 9 0).testBit 0 <;> simp

/-- The record left by the header loop of `NewROMFile`, field by field. -/
theorem header_fold (buf : List Nat) :
    [4, 5, 6, 7, 8, 9].foldl (headerStep buf) ROMFile.zero =
      { prgBanks := buf.getD 4 0,
        chrBanks := buf.getD 5 0,
        mirroring :=
          if (buf.getD 6 0).testBit 3 then Mirroring.FourScreen
          else if (buf.getD 6 0).testBit 0 then Mirroring.Vertical
          else Mirroring.Horizontal,
        battery := (buf.getD 6 0).testBit 1,
        trainer := (buf.getD 6 0).testBit 2,
        fourScreen := (buf.getD 6 0).testBit 3,
        vsCart := (buf.getD 7 0).testBit 0,
        mapper := ((buf.getD 6 0 >>> 4) &&& 0x0f) ||| (buf.getD 7 0 &&& 0xf0),
        ramBanks := if buf.getD 8 0 = 0 then 1 else buf.getD 8 0,
        region := if (buf.getD 9 0).testBit 0 then Region.PAL else Region.NTSC,
        trainerData := [],
        romBanks := [],
        vromBanks := [] } := by
  simp only [List.foldl, headerStep_4, headerStep_5, headerStep_6, headerStep_7, headerStep_8,
    headerStep_9, ROMFile.zero, Bool.false_or]

/-! ## Bank loops -/

theorem readBanks_snd (buf : List Nat) (offset : Nat) (n i : Nat) :
    (readBanks buf offset n i).2 = i + offset * n := by
  induction n generalizing i with
  | zero => simp [readBanks]
  | succ n ih =>
    simp only [readBanks, ih]
    rw [Nat.mul_succ]
    omega

theorem readBanks_length (buf : List Nat) (offset : Nat) (n i : Nat) :
    (readBanks buf offset n i).1.length = n := by
  induction n generalizing i with
  | zero => simp [readBanks]
  | succ n ih => simp [readBanks, ih]

theorem readBanks_getElem? (buf : List Nat) (offset : Nat) (n i k : Nat) (hk : k < n) :
    (readBanks buf offset n i).1[k]? = some (sliceAt buf (i + offset * k) offset) := by
  induction n generalizing i k with
  | zero => omega
  | succ n ih =>
    cases k with
    | zero => simp [readBanks]
    | succ k =>
      simp only [readBanks, List.getElem?_cons_succ]
      rw [ih (i + offset) k (by omega), Nat.mul_succ]
      congr 2
      omega

theorem sliceAt_length (buf : List Nat) (i offset : Nat) (h : i + offset ≤ buf.length) :
    (sliceAt buf i offset).length = offset := by
  simp only [sliceAt, List.length_take, List.length_drop]
  omega

/-! ## Acceptance of an image -/

/-- Go `NewROMFile` succeeds exactly on the images with a full header, the magic and all the
announced data, and then returns the header record with the three data fields filled. -/
theorem NewROMFile_ok_iff (buf : List Nat) (romf : ROMFile) :
    NewROMFile buf = Except.ok romf ↔
      16 ≤ buf.length ∧ buf.take 3 = [0x4e, 0x45, 0x53] ∧ buf.getD 3 0 = 0x1a ∧
      16 + (if (buf.getD 6 0).testBit 2 then 512 else 0) + 16384 * buf.getD 4 0 +
        8192 * buf.getD 5 0 ≤ buf.length ∧
      romf =
        { ([4, 5, 6, 7, 8, 9].foldl (headerStep buf) ROMFile.zero) with
          trainerData := if (buf.getD 6 0).testBit 2 then sliceAt buf 16 512 else [],
          romBanks :=
            (readBanks buf 16384 (buf.getD 4 0)
              (16 + (if (buf.getD 6 0).testBit 2 then 512 else 0))).1,
          vromBanks :=
            (readBanks buf 8192 (buf.getD 5 0)
              (16 + (if (buf.getD 6 0).testBit 2 then 512 else 0) + 16384 * buf.getD 4 0)).1 } := by
  have hf := header_fold buf
  have ht := congrArg ROMFile.trainer hf
  have hp := congrArg ROMFile.prgBanks hf
  have hc := congrArg ROMFile.chrBanks hf
  have hd := congrArg ROMFile.trainerData hf
  simp only at ht hp hc hd
  unfold NewROMFile
  simp only [readBankData, readBanks_snd]
  generalize [4, 5, 6, 7, 8, 9].foldl (headerStep buf) ROMFile.zero = H at ht hp hc hd ⊢
  simp only [hp, hc, ht]
  by_cases h1 : buf.length < 16
  · rw [if_pos h1]
    constructor
    · intro h; cases h
    · rintro ⟨h, -⟩; omega
  rw [if_neg h1]
  by_cases h2 : buf.take 3 ≠ [0x4e, 0x45, 0x53] ∨ buf.getD 3 0 ≠ 0x1a
  · rw [if_pos h2]
    constructor
    · intro h; cases h
    · rintro ⟨-, h3, h4, -⟩
      rcases h2 with h2 | h2
      · exact absurd h3 h2
      · exact absurd h4 h2
  rw [if_neg h2]
  have h2a : buf.take 3 = [0x4e, 0x45, 0x53] := by
    by_contra h; exact h2 (Or.inl h)
  have h2b : buf.getD 3 0 = 0x1a := by
    by_contra h; exact h2 (Or.inr h)
  cases hb : (buf.getD 6 0).testBit 2
  · simp only [Bool.false_eq_true, if_false]
    by_cases h3 : buf.length < 10 + 6 + 1024 * 16 * buf.getD 4 0
    · rw [if_pos h3]
      constructor
      · intro h; cases h
      · rintro ⟨-, -, -, h, -⟩; omega
    rw [if_neg h3]
    by_cases h4 : buf.length < 10 + 6 + 1024 * 16 * buf.getD 4 0 + 1024 * 8 * buf.getD 5 0
    · rw [if_pos h4]
      constructor
      · intro h; cases h
      · rintro ⟨-, -, -, h, -⟩; omega
    rw [if_neg h4]
    constructor
    · intro h
      refine ⟨by omega, h2a, h2b, by omega, ?_⟩
      cases h
      rw [hb] at ht
      rcases H with ⟨⟩
      simp only at hd ht
      subst hd
      rfl
    · rintro ⟨-, -, -, -, h⟩
      rw [hb] at ht
      rcases H with ⟨⟩
      simp only at hd ht
      subst hd
      rw [h]
  · simp only [if_true]
    by_cases h0 : buf.length < 10 + 6 + 512
    · rw [if_pos h0]
      constructor
      · intro h; cases h
      · rintro ⟨-, -, -, h, -⟩; omega
    rw [if_neg h0]
    by_cases h3 : buf.length < 10 + 6 + 512 + 1024 * 16 * buf.getD 4 0
    · rw [if_pos h3]
      constructor
      · intro h; cases h
      · rintro ⟨-, -, -, h, -⟩; omega
    rw [if_neg h3]
    by_cases h4 :
        buf.length < 10 + 6 + 512 + 1024 * 16 * buf.getD 4 0 + 1024 * 8 * buf.getD 5 0
    · rw [if_pos h4]
      constructor
      · intro h; cases h
      · rintro ⟨-, -, -, h, -⟩; omega
    rw [if_neg h4]
    constructor
    · intro h
      refine ⟨by omega, h2a, h2b, by omega, ?_⟩
      cases h
      rfl
    · rintro ⟨-, -, -, -, h⟩
      rw [h]

theorem take_three_eq (buf : List Nat) (a b c : Nat) (h : 16 ≤ buf.length) :
    buf.take 3 = [a, b, c] ↔ buf.getD 0 0 = a ∧ buf.getD 1 0 = b ∧ buf.getD 2 0 = c := by
  match buf, h with
  | x :: y :: z :: rest, _ => simp

/-- C1: `NewROMFile buf` returns a ROM file and no error exactly when `buf` has at least
16 bytes, starts with 'N', 'E', 'S', 0x1A and is at least
`16 + 512 * t + 16384 * buf[4] + 8192 * buf[5]` bytes long, where `t` is 1 when bit 2 of
`buf[6]` is set and 0 otherwise; in every other case it returns an error and no ROM file. -/
theorem NewROMFile_accepts_iff (buf : List Nat) :
    if 16 ≤ buf.length ∧
        buf.getD 0 0 = 'N'.toNat ∧ buf.getD 1 0 = 'E'.toNat ∧ buf.getD 2 0 = 'S'.toNat ∧
        buf.getD 3 0 = 0x1A ∧
        16 + 512 * (if (buf.getD 6 0).testBit 2 then 1 else 0) + 16384 * buf.getD 4 0 +
          8192 * buf.getD 5 0 ≤ buf.length
    then ∃ romf, NewROMFile buf = Except.ok romf
    else ∃ err, NewROMFile buf = Except.error err := by
  by_cases h : 16 ≤ buf.length ∧
      buf.getD 0 0 = 'N'.toNat ∧ buf.getD 1 0 = 'E'.toNat ∧ buf.getD 2 0 = 'S'.toNat ∧
      buf.getD 3 0 = 0x1A ∧
      16 + 512 * (if (buf.getD 6 0).testBit 2 then 1 else 0) + 16384 * buf.getD 4 0 +
        8192 * buf.getD 5 0 ≤ buf.length
  · rw [if_pos h]
    obtain ⟨h16, hN, hE, hS, h1a, hlen⟩ := h
    refine ⟨_, (NewROMFile_ok_iff buf _).mpr ⟨h16, ?_, h1a, ?_, rfl⟩⟩
    · exact (take_three_eq buf _ _ _ h16).mpr ⟨hN, hE, hS⟩
    · split_ifs at hlen ⊢ <;> omega
  · rw [if_neg h]
    cases hr : NewROMFile buf with
    | error err => exact ⟨err, rfl⟩
    | ok romf =>
      exfalso
      apply h
      obtain ⟨h16, hmagic, h1a, hlen, -⟩ := (NewROMFile_ok_iff buf romf).mp hr
      obtain ⟨hN, hE, hS⟩ := (take_three_eq buf _ _ _ h16).mp hmagic
      refine ⟨h16, hN, hE, hS, h1a, ?_⟩
      split_ifs at hlen ⊢ <;> omega

/-- C2: for an accepted image, with `t = 512` if bit 2 of `buf[6]` is set else 0,
`p = buf[4]` and `c = buf[5]`: the trainer data is `buf[16 .. 16+t)` when the trainer bit
is set and absent otherwise; there are exactly `p` PRG banks and bank `n` is the 16384
bytes from `16+t+16384*n`; there are exactly `c` CHR banks and bank `n` is the 8192 bytes
from `16+t+16384*p+8192*n`. -/
theorem NewROMFile_data_layout (buf : List Nat) (romf : ROMFile)
    (hok : NewROMFile buf = Except.ok romf) :
    romf.trainerData = (if (buf.getD 6 0).testBit 2 then (buf.drop 16).take 512 else []) ∧
    ((buf.getD 6 0).testBit 2 = true → romf.trainerData.length = 512) ∧
    romf.romBanks.length = buf.getD 4 0 ∧
    (∀ n, n < buf.getD 4 0 →
      romf.romBanks[n]? =
        some ((buf.drop (16 + (if (buf.getD 6 0).testBit 2 then 512 else 0) + 16384 * n)).take
          16384) ∧
      ((buf.drop (16 + (if (buf.getD 6 0).testBit 2 then 512 else 0) + 16384 * n)).take
          16384).length = 16384) ∧
    romf.vromBanks.length = buf.getD 5 0 ∧
    (∀ n, n < buf.getD 5 0 →
      romf.vromBanks[n]? =
        some ((buf.drop (16 + (if (buf.getD 6 0).testBit 2 then 512 else 0) +
          16384 * buf.getD 4 0 + 8192 * n)).take 8192) ∧
      ((buf.drop (16 + (if (buf.getD 6 0).testBit 2 then 512 else 0) +
          16384 * buf.getD 4 0 + 8192 * n)).take 8192).length = 8192) := by
  obtain ⟨h16, -, -, hlen, hr⟩ := (NewROMFile_ok_iff buf romf).mp hok
  subst hr
  simp only [readBanks_length]
  refine ⟨rfl, ?_, trivial, ?_, trivial, ?_⟩
  · intro hb
    rw [if_pos hb] at hlen ⊢
    exact sliceAt_length buf 16 512 (by omega)
  · intro n hn
    refine ⟨readBanks_getElem? buf 16384 _ _ n hn, ?_⟩
    apply sliceAt_length
    have : 16384 * (n + 1) ≤ 16384 * buf.getD 4 0 := Nat.mul_le_mul_left _ hn
    omega
  · intro n hn
    refine ⟨readBanks_getElem? buf 8192 _ _ n hn, ?_⟩
    apply sliceAt_length
    have : 8192 * (n + 1) ≤ 8192 * buf.getD 5 0 := Nat.mul_le_mul_left _ hn
    omega

theorem sampleImage_ok : NewROMFile sampleImage = Except.ok sampleROMFile := by
  have hlen : sampleImage.length = 25104 := by
    rw [sampleImage, List.length_append, List.length_append, List.length_append,
      List.length_replicate, List.length_replicate, List.length_replicate]
    rfl
  have g4 : sampleImage.getD 4 0 = 1 := rfl
  have g5 : sampleImage.getD 5 0 = 1 := rfl
  have g6 : sampleImage.getD 6 0 = 0x1d := rfl
  have g7 : sampleImage.getD 7 0 = 0x20 := rfl
  have g8 : sampleImage.getD 8 0 = 0 := rfl
  have g9 : sampleImage.getD 9 0 = 1 := rfl
  have t0 : Nat.testBit 0x1d 0 = true := by decide
  have t1 : Nat.testBit 0x1d 1 = false := by decide
  have t2 : Nat.testBit 0x1d 2 = true := by decide
  have t3 : Nat.testBit 0x1d 3 = true := by decide
  have t7 : Nat.testBit 0x20 0 = false := by decide
  have t9 : Nat.testBit 1 0 = true := by decide
  refine (NewROMFile_ok_iff _ _).mpr ⟨?_, rfl, rfl, ?_, ?_⟩
  · rw [hlen]
    decide
  · rw [g4, g5, g6, t2, hlen]
    decide
  · rw [header_fold]
    simp only [g4, g5, g6, g7, g8, g9, t0, t1, t2, t3, t7, t9, readBanks, sliceAt, if_true]
    rfl

theorem NewROMFile_data_layout_witness :
    NewROMFile sampleImage = Except.ok sampleROMFile ∧
    sampleROMFile.trainerData.length = 512 ∧
    sampleROMFile.romBanks.length = sampleImage.getD 4 0 ∧
    (sampleROMFile.romBanks[0]? = some ((sampleImage.drop (16 + 512 + 16384 * 0)).take 16384) ∧
      ((sampleImage.drop (16 + 512 + 16384 * 0)).take 16384).length = 16384) ∧
    sampleROMFile.vromBanks.length = sampleImage.getD 5 0 :=
  ⟨sampleImage_ok,
    (NewROMFile_data_layout sampleImage sampleROMFile sampleImage_ok).2.1 (by decide),
    (NewROMFile_data_layout sampleImage sampleROMFile sampleImage_ok).2.2.1,
    (NewROMFile_data_layout sampleImage sampleROMFile sampleImage_ok).2.2.2.1 0 (by decide),
    (NewROMFile_data_layout sampleImage sampleROMFile sampleImage_ok).2.2.2.2.1⟩

/-! ## Mapper id, mirroring, mapper support -/

set_option maxRecDepth 100000 in
theorem nibble_or : ∀ a < 16, ∀ b < 256,
    (a ||| (b &&& 240)) % 16 = a ∧ (a ||| (b &&& 240)) / 16 = b / 16 := by
  decide!

set_option maxRecDepth 100000 in
theorem high_nibble : ∀ b < 256,
    (b >>> 4) &&& 15 = b >>> 4 ∧ b >>> 4 < 16 ∧ b >>> 4 = b / 16 := by
  decide!

theorem getD_lt_256 (buf : List Nat) (hbytes : ∀ b ∈ buf, b < 256) (i : Nat) :
    buf.getD i 0 < 256 := by
  rw [List.getD_eq_getElem?_getD]
  cases h : buf[i]? with
  | none => simp
  | some b => exact hbytes b (List.getElem?_mem h)

/-- C3: for an accepted image of bytes, the mapper id is
`(buf[6] >> 4) | (buf[7] & 0xF0)`: its low nibble is the high nibble of header byte 6 and
its high nibble is the high nibble of header byte 7. -/
theorem NewROMFile_mapper (buf : List Nat) (romf : ROMFile)
    (hbytes : ∀ b ∈ buf, b < 256) (hok : NewROMFile buf = Except.ok romf) :
    romf.mapper = (buf.getD 6 0 >>> 4) ||| (buf.getD 7 0 &&& 0xF0) ∧
    romf.mapper % 16 = buf.getD 6 0 / 16 ∧
    romf.mapper / 16 = buf.getD 7 0 / 16 := by
  obtain ⟨-, -, -, -, hr⟩ := (NewROMFile_ok_iff buf romf).mp hok
  have hm : romf.mapper =
      ((buf.getD 6 0 >>> 4) &&& 0x0f) ||| (buf.getD 7 0 &&& 0xf0) := by
    rw [hr, header_fold]
  obtain ⟨h1, h2, h3⟩ := high_nibble _ (getD_lt_256 buf hbytes 6)
  obtain ⟨h4, h5⟩ := nibble_or _ h2 _ (getD_lt_256 buf hbytes 7)
  rw [hm, h1]
  exact ⟨rfl, h3 ▸ h4, h5⟩

theorem headerImage_ok : NewROMFile headerImage = Except.ok headerROMFile := by
  rfl

theorem NewROMFile_mapper_witness :
    (∀ b ∈ headerImage, b < 256) ∧ NewROMFile headerImage = Except.ok headerROMFile ∧
    headerROMFile.mapper = (headerImage.getD 6 0 >>> 4) ||| (headerImage.getD 7 0 &&& 0xF0) ∧
    headerROMFile.mapper % 16 = headerImage.getD 6 0 / 16 ∧
    headerROMFile.mapper / 16 = headerImage.getD 7 0 / 16 :=
  ⟨by decide, headerImage_ok,
    NewROMFile_mapper headerImage headerROMFile (by decide) headerImage_ok⟩

/-- C4: for an accepted image, the mirroring is FourScreen if bit 3 of `buf[6]` is set
(whatever bit 0 is), otherwise Vertical if bit 0 is set, otherwise Horizontal; and the
`fourScreen` field is true exactly when the mirroring is FourScreen. -/
theorem NewROMFile_mirroring (buf : List Nat) (romf : ROMFile)
    (hok : NewROMFile buf = Except.ok romf) :
    romf.mirroring =
      (if (buf.getD 6 0).testBit 3 then Mirroring.FourScreen
       else if (buf.getD 6 0).testBit 0 then Mirroring.Vertical
       else Mirroring.Horizontal) ∧
    (romf.fourScreen = true ↔ romf.mirroring = Mirroring.FourScreen) := by
  obtain ⟨-, -, -, -, hr⟩ := (NewROMFile_ok_iff buf romf).mp hok
  have hm : romf.mirroring =
      (if (buf.getD 6 0).testBit 3 then Mirroring.FourScreen
       else if (buf.getD 6 0).testBit 0 then Mirroring.Vertical
       else Mirroring.Horizontal) := by
    rw [hr, header_fold]
  have hf : romf.fourScreen = (buf.getD 6 0).testBit 3 := by
    rw [hr, header_fold]
  refine ⟨hm, ?_⟩
  rw [hm, hf]
  cases (buf.getD 6 0).testBit 3 <;> cases (buf.getD 6 0).testBit 0 <;> simp

theorem NewROMFile_mirroring_witness :
    NewROMFile headerImage = Except.ok headerROMFile ∧
    headerROMFile.mirroring = Mirroring.FourScreen ∧
    (headerROMFile.fourScreen = true ↔ headerROMFile.mirroring = Mirroring.FourScreen) :=
  ⟨headerImage_ok, (NewROMFile_mirroring headerImage headerROMFile headerImage_ok).1,
    (NewROMFile_mirroring headerImage headerROMFile headerImage_ok).2⟩

/-- C5: when the file content is accepted by `NewROMFile`, `NewROM` returns an error (and
no ROM) if and only if the decoded mapper id is not 0, and for mapper id 0 it returns the
NROM cartridge built from the ROM file, with no error. -/
theorem NewROM_mapper_support {R : Type} (NewNROM : ROMFile → R) (buf : List Nat)
    (romf : ROMFile) (hok : NewROMFile buf = Except.ok romf) :
    ((∃ err, NewROM NewNROM (Except.ok buf) = Except.error err) ↔ romf.mapper ≠ 0) ∧
    (romf.mapper = 0 → NewROM NewNROM (Except.ok buf) = Except.ok (NewNROM romf)) := by
  simp only [NewROM, hok]
  cases hm : romf.mapper with
  | zero => simp
  | succ n => simp

theorem nromImage_ok : NewROMFile nromImage = Except.ok nromROMFile := by
  rfl

theorem NewROM_mapper_support_witness :
    NewROMFile nromImage = Except.ok nromROMFile ∧
    NewROM id (Except.ok nromImage) = Except.ok nromROMFile ∧
    NewROMFile headerImage = Except.ok headerROMFile ∧
    ∃ err, NewROM id (Except.ok headerImage) = Except.error err :=
  ⟨nromImage_ok,
    (NewROM_mapper_support id nromImage nromROMFile nromImage_ok).2 rfl,
    headerImage_ok,
    (NewROM_mapper_support id headerImage headerROMFile headerImage_ok).1.mpr (by decide)⟩

end Nintengo

namespace Rp2ago3

/-! ## Noise shift register -/

/-- What one timer clock of the noise channel does to the shift register: the feedback
tap is bit 5 when the mode bit (bit 7 of $400E) is clear and bit 1 when it is set. -/
theorem firingNoise_ClockDivider (r1 shift : Nat) :
    (firingNoise r1 shift).ClockDivider =
      firingNoise r1
        (((shift >>> 1) |||
          ((((shift &&& 1) ^^^ ((shift >>> (if r1 >>> 7 = 0 then 5 else 1)) &&& 1)) <<< 14)
            % 2 ^ 16)) % 2 ^ 16) := by
  rfl

/-- C8 (code evaluated at the failing inputs): with shift register 0x0002 and mode 0 the
timer clock yields 0x0001 where feedback from bit 0 XOR bit 1 would yield 0x4001, and
with shift register 0x0040 and mode 1 it yields 0x0020 where feedback from bit 0 XOR
bit 6 would yield 0x4020. -/
theorem ClockDivider_feedback_taps :
    ((firingNoise 0x00 0x0002).ClockDivider.Shift = 0x0001 ∧
      (0x0002 >>> 1) ||| (((0x0002 &&& 1) ^^^ ((0x0002 >>> 1) &&& 1)) <<< 14) = 0x4001) ∧
    ((firingNoise 0x80 0x0040).ClockDivider.Shift = 0x0020 ∧
      (0x0040 >>> 1) ||| (((0x0040 &&& 1) ^^^ ((0x0040 >>> 6) &&& 1)) <<< 14) = 0x4020) := by
  decide

theorem firingNoise_mode0_period :
    Noise.ClockDivider^[35] (firingNoise 0x00 0x0001) = firingNoise 0x00 0x0001 := by
  decide!

/-- C6 (code evaluated at the failing input): seeded with 0x0001 and with mode 0, the
shift register first returns to 0x0001 after 35 timer clocks, and after 32767 timer
clocks it holds 0x0100. -/
theorem ClockDivider_mode0_returns_after_35 :
    (Noise.ClockDivider^[35] (firingNoise 0x00 0x0001)).Shift = 0x0001 ∧
    (∀ k, k < 35 → 0 < k →
      (Noise.ClockDivider^[k] (firingNoise 0x00 0x0001)).Shift ≠ 0x0001) ∧
    (Noise.ClockDivider^[32767] (firingNoise 0x00 0x0001)).Shift = 0x0100 := by
  refine ⟨by decide!, by decide!, ?_⟩
  have h : (32767 : Nat) = 7 + 35 * 936 := rfl
  rw [h, Function.iterate_add_apply, Function.iterate_mul,
    Function.iterate_fixed firingNoise_mode0_period]
  decide!

/-- C7 (code evaluated at the failing input): seeded with 0x0001 and with mode 1, the
shift register holds 0x1540 after 93 timer clocks, not 0x0001. -/
theorem ClockDivider_mode1_after_93 :
    (Noise.ClockDivider^[93] (firingNoise 0x80 0x0001)).Shift = 0x1540 := by
  decide!

/-! ## Noise output -/

theorem and_one_eq_zero_iff (x : Nat) : x &&& 0x0001 = 0 ↔ x.testBit 0 = false := by
  rw [Nat.and_one_is_mod, Nat.testBit_to_div_mod]
  simp

theorem shiftRight_and_one_eq_zero_iff (x k : Nat) :
    (x >>> k) &&& 0x01 = 0 ↔ x.testBit k = false := by
  rw [Nat.and_one_is_mod, Nat.testBit_to_div_mod, Nat.shiftRight_eq_div_pow]
  simp

/-- C9: `Noise.Sample` returns 0 when bit 0 of the shift register is 1 or the length
counter is 0; otherwise it returns the envelope counter when the constant-volume flag
(bit 4 of the $400C register) is clear, and the low 4 bits of the $400C register when
that flag is set. -/
theorem Noise_Sample_eq (noise : Noise) :
    noise.Sample =
      if noise.Shift.testBit 0 = true ∨ noise.LengthCounter = 0 then 0
      else if noise.Registers.r0.testBit 4 = false then (noise.Envelope.Counter : Int)
      else ((noise.Registers.r0 % 16 : Nat) : Int) := by
  unfold Noise.Sample Noise.registers
  simp only [and_one_eq_zero_iff, shiftRight_and_one_eq_zero_iff]
  have h16 : noise.Registers.r0 &&& 0x0f = noise.Registers.r0 % 16 :=
    Nat.and_pow_two_sub_one_eq_mod _ 4
  rw [h16]
  cases hs : noise.Shift.testBit 0 <;> cases hv : noise.Registers.r0.testBit 4 <;>
    by_cases hl : noise.LengthCounter = 0 <;> simp [hl, hs, hv]

/-! ## Frame interrupt -/

theorem FrameCounter_Clock_NumSteps (frameCounter : FrameCounter) :
    frameCounter.Clock.1.NumSteps = frameCounter.NumSteps := by
  unfold FrameCounter.Clock
  simp only
  split_ifs <;> rfl

/-- With `NumSteps = 0` the `switch step` statement raises no frame interrupt: the status
register, `NumSteps` and a zero noise length counter are kept. -/
theorem switchStep_quiet (apu : APU) (step : Nat)
    (hs : apu.Registers.Status = 0) (hn : apu.FrameCounter.NumSteps = 0)
    (hl : apu.Noise.LengthCounter = 0) :
    (apu.switchStep step).Registers.Status = 0 ∧
    (apu.switchStep step).FrameCounter.NumSteps = 0 ∧
    (apu.switchStep step).Noise.LengthCounter = 0 := by
  rcases step with _ | _ | _ | _ | _ | _ | step <;>
    simp [APU.switchStep, APU.clockNoiseEnvelope, APU.clockLinearCounter,
      APU.clockNoiseLengthCounter, Noise.ClockEnvelope, Noise.ClockLengthCounter, hn, hs, hl]

/-- The facts that keep the frame interrupt flag from ever being raised: the status
register is clear, `NumSteps` is 0 and the noise length counter is 0. -/
theorem ExecuteFrameCounter_quiet (apu : APU)
    (hs : apu.Registers.Status = 0) (hn : apu.FrameCounter.NumSteps = 0)
    (hl : apu.Noise.LengthCounter = 0) :
    apu.ExecuteFrameCounter.Registers.Status = 0 ∧
    apu.ExecuteFrameCounter.FrameCounter.NumSteps = 0 ∧
    apu.ExecuteFrameCounter.Noise.LengthCounter = 0 := by
  have hc := FrameCounter_Clock_NumSteps apu.FrameCounter
  rw [hn] at hc
  unfold APU.ExecuteFrameCounter
  generalize apu.FrameCounter.Clock = c at hc ⊢
  obtain ⟨fc, changed, step⟩ := c
  simp only at hc ⊢
  obtain ⟨h1, h2, h3⟩ := switchStep_quiet { apu with FrameCounter := fc } step hs hc hl
  cases changed
  · exact ⟨hs, hc, hl⟩
  · simp only [if_true]
    split_ifs
    · exact ⟨h1, h2, h3⟩
    · exact ⟨h1, h2, h3⟩

theorem Noise_Sample_of_LengthCounter_zero (noise : Noise) (hl : noise.LengthCounter = 0) :
    noise.Sample = 0 := by
  unfold Noise.Sample
  simp [hl]

theorem Noise_ClockDivider_LengthCounter (noise : Noise) :
    noise.ClockDivider.LengthCounter = noise.LengthCounter := by
  unfold Noise.ClockDivider
  simp only
  split_ifs <;> rfl

/-- With a silent noise channel the mixer indices are 0 and 0, so `Sample` does not
panic; it changes the two filter accumulators only. -/
theorem Sample_of_LengthCounter_zero (mix : Nat → Nat → Int) (apu : APU)
    (hl : apu.Noise.LengthCounter = 0) :
    ∃ apu1 sample, apu.Sample mix = some (apu1, sample) ∧
      apu1.Registers = apu.Registers ∧ apu1.FrameCounter = apu.FrameCounter ∧
      apu1.Noise = apu.Noise := by
  have hn : apu.Noise.Sample = 0 := Noise_Sample_of_LengthCounter_zero apu.Noise hl
  have hp : wrapInt 16 (apu.Pulse1.Sample + apu.Pulse2.Sample) = 0 := by
    simp [Pulse.Sample, wrapInt]
  have ht : wrapInt 16 (3 * apu.Triangle.Sample + 2 * apu.Noise.Sample + apu.DMC.Sample) = 0 := by
    simp [Triangle.Sample, DMC.Sample, hn, wrapInt]
  unfold APU.Sample
  simp only [hp, ht]
  exact ⟨_, _, rfl, rfl, rfl, rfl⟩

theorem Execute_quiet (mix : Nat → Nat → Int) (apu : APU)
    (hs : apu.Registers.Status = 0) (hn : apu.FrameCounter.NumSteps = 0)
    (hl : apu.Noise.LengthCounter = 0) :
    ∃ apu1 sample haveSample, apu.Execute mix = some (apu1, sample, haveSample) ∧
      apu1.Registers.Status = 0 ∧ apu1.FrameCounter.NumSteps = 0 ∧
      apu1.Noise.LengthCounter = 0 := by
  obtain ⟨h1, h2, h3⟩ := ExecuteFrameCounter_quiet apu hs hn hl
  unfold APU.Execute
  generalize apu.ExecuteFrameCounter = a at h1 h2 h3
  simp only
  have key : ∀ b : APU, b.Registers.Status = 0 → b.FrameCounter.NumSteps = 0 →
      b.Noise.LengthCounter = 0 →
      ∃ apu1 sample haveSample,
        (if (b.Cycles + 1) % 2 ^ 64 = b.TargetCycles then
          match APU.Sample mix { b with Cycles := (b.Cycles + 1) % 2 ^ 64 } with
          | none => none
          | some (apu, sample) =>
            some ({ apu with Cycles := 0, TargetCycles := apu.TargetCycles ^^^ 0x1 }, sample, true)
        else some ({ b with Cycles := (b.Cycles + 1) % 2 ^ 64 }, 0, false)) =
          some (apu1, sample, haveSample) ∧
        apu1.Registers.Status = 0 ∧ apu1.FrameCounter.NumSteps = 0 ∧
        apu1.Noise.LengthCounter = 0 := by
    intro b b1 b2 b3
    split_ifs
    · obtain ⟨c, sample, hc, c1, c2, c3⟩ :=
        Sample_of_LengthCounter_zero mix { b with Cycles := (b.Cycles + 1) % 2 ^ 64 } b3
      rw [hc]
      refine ⟨_, _, _, rfl, ?_, ?_, ?_⟩
      · simp only [c1, b1]
      · simp only [c2, b2]
      · simp only [c3, b3]
    · exact ⟨_, _, _, rfl, b1, b2, b3⟩
  by_cases hc : a.control EnableNoise = true
  · rw [if_pos hc]
    exact key { a with Noise := a.Noise.ClockDivider } h1 h2
      ((Noise_ClockDivider_LengthCounter a.Noise).trans h3)
  · rw [if_neg hc]
    exact key a h1 h2 h3

theorem ExecuteN_quiet (mix : Nat → Nat → Int) (n : Nat) (apu : APU)
    (hs : apu.Registers.Status = 0) (hn : apu.FrameCounter.NumSteps = 0)
    (hl : apu.Noise.LengthCounter = 0) :
    ∃ apu1, APU.ExecuteN mix n apu = some apu1 ∧
      apu1.Registers.Status = 0 ∧ apu1.FrameCounter.NumSteps = 0 ∧
      apu1.Noise.LengthCounter = 0 := by
  induction n generalizing apu with
  | zero => exact ⟨apu, rfl, hs, hn, hl⟩
  | succ n ih =>
    obtain ⟨a, sample, haveSample, ha, a1, a2, a3⟩ := Execute_quiet mix apu hs hn hl
    obtain ⟨b, hb, b1, b2, b3⟩ := ih a a1 a2 a3
    refine ⟨b, ?_, b1, b2, b3⟩
    simp only [APU.ExecuteN, ha]
    exact hb

/-- C10 (code evaluated at the failing input): from a new and reset APU, after
`Store(0x4017, 0x00)` and 29830 calls of `Execute` (none of which panics), `Fetch(0x4015)`
returns 0, where bit 6 is clear. -/
theorem frame_interrupt_not_raised (mix : Nat → Nat → Int) :
    ∃ apu0 apu1,
      NewAPU.Reset.Store 0x4017 0x00 = some (apu0, 0x00) ∧
      APU.ExecuteN mix 29830 apu0 = some apu1 ∧
      (apu1.Fetch 0x4015).2 = 0 ∧ (apu1.Fetch 0x4015).2.testBit 6 = false := by
  have h0 : ∃ apu0, NewAPU.Reset.Store 0x4017 0x00 = some (apu0, 0x00) ∧
      apu0.Registers.Status = 0 ∧ apu0.FrameCounter.NumSteps = 0 ∧
      apu0.Noise.LengthCounter = 0 := ⟨_, rfl, rfl, rfl, rfl⟩
  obtain ⟨apu0, hstore, s0, n0, l0⟩ := h0
  obtain ⟨apu1, hrun, s1, -, -⟩ := ExecuteN_quiet mix 29830 apu0 s0 n0 l0
  have hf : (apu1.Fetch 0x4015).2 = 0 := s1
  refine ⟨apu0, apu1, hstore, hrun, hf, ?_⟩
  rw [hf]
  rfl

/-! ## Status and control registers -/

theorem testBit_and_mask (s mask i : Nat) (hs : s < 256) (k : Nat) (hk : k < 8)
    (hmask : mask = 0xff ^^^ (1 <<< k)) :
    (s &&& mask).testBit i = (decide (i ≠ k) && s.testBit i) := by
  subst hmask
  rw [Nat.testBit_and]
  by_cases hi : i < 8
  · have h8 : ∀ k, k < 8 → ∀ i, i < 8 →
        (0xff ^^^ (1 <<< k)).testBit i = decide (i ≠ k) := by decide
    rw [h8 k hk i hi, Bool.and_comm]
  · have hpow : (2 : Nat) ^ 8 ≤ 2 ^ i := Nat.pow_le_pow_right (by decide) (by omega)
    have hz : s.testBit i = false :=
      Nat.testBit_lt_two_pow (lt_of_lt_of_le (show s < 2 ^ 8 from hs) hpow)
    rw [hz]
    simp

/-- C12: `Fetch(0x4015)` returns the status register held before the call; afterwards
the status register is that value with bit 6 (frame interrupt) cleared, every other bit
and every other field unchanged, so a second `Fetch(0x4015)` returns bit 6 clear. `Fetch`
of any other address returns 0 and changes nothing. -/
theorem Fetch_status (apu : APU) (hs : apu.Registers.Status < 256) :
    (apu.Fetch 0x4015).2 = apu.Registers.Status ∧
    (apu.Fetch 0x4015).1 =
      { apu with
        Registers :=
          { apu.Registers with Status := (apu.Fetch 0x4015).1.Registers.Status } } ∧
    (∀ i, (apu.Fetch 0x4015).1.Registers.Status.testBit i =
      (decide (i ≠ 6) && apu.Registers.Status.testBit i)) ∧
    ((apu.Fetch 0x4015).1.Fetch 0x4015).2.testBit 6 = false ∧
    (∀ address, address ≠ 0x4015 → apu.Fetch address = (apu, 0)) := by
  have hbits : ∀ i, (apu.Registers.Status &&& compl8 FrameInterrupt).testBit i =
      (decide (i ≠ 6) && apu.Registers.Status.testBit i) :=
    fun i => testBit_and_mask _ _ i hs 6 (by decide) rfl
  refine ⟨rfl, rfl, hbits, ?_, ?_⟩
  · show (apu.Registers.Status &&& compl8 FrameInterrupt).testBit 6 = false
    rw [hbits 6]
    simp
  · intro address ha
    unfold APU.Fetch
    split
    · exact absurd rfl ha
    · rfl

theorem Fetch_status_witness :
    irqPendingAPU.Registers.Status < 256 ∧
    (irqPendingAPU.Fetch 0x4015).2 = 0x41 ∧
    (irqPendingAPU.Fetch 0x4015).1.Registers.Status.testBit 0 = true ∧
    ((irqPendingAPU.Fetch 0x4015).1.Fetch 0x4015).2.testBit 6 = false :=
  ⟨by decide, (Fetch_status irqPendingAPU (by decide)).1,
    ((Fetch_status irqPendingAPU (by decide)).2.2.1 0).trans (by decide),
    (Fetch_status irqPendingAPU (by decide)).2.2.2.1⟩

/-- C15: `Store(0x4015, v)` returns the previous control register, sets the control
register to `v`, clears bit 7 (DMC interrupt) of the status register leaving its other bits
unchanged, and sets the noise length counter to 0 when bit 3 of `v` is clear while leaving
it unchanged when bit 3 of `v` is set. -/
theorem Store_control (apu : APU) (v : Nat) (hs : apu.Registers.Status < 256) :
    ∃ apu1, apu.Store 0x4015 v = some (apu1, apu.Registers.Control) ∧
      apu1.Registers.Control = v ∧
      (∀ i, apu1.Registers.Status.testBit i =
        (decide (i ≠ 7) && apu.Registers.Status.testBit i)) ∧
      (v.testBit 3 = false → apu1.Noise.LengthCounter = 0) ∧
      (v.testBit 3 = true → apu1.Noise.LengthCounter = apu.Noise.LengthCounter) := by
  have hbits : ∀ i, (apu.Registers.Status &&& compl8 DMCInterrupt).testBit i =
      (decide (i ≠ 7) && apu.Registers.Status.testBit i) :=
    fun i => testBit_and_mask _ _ i hs 7 (by decide) rfl
  have hen : v &&& EnableNoise ≠ 0 ↔ v.testBit 3 = true :=
    Nintengo.and_two_pow_ne_zero_iff v 3
  by_cases h3 : v.testBit 3 = true
  · refine ⟨{ apu with
        Registers := { Control := v, Status := apu.Registers.Status &&& compl8 DMCInterrupt } },
      ?_, rfl, hbits, ?_, fun _ => rfl⟩
    · simp [APU.Store, APU.control, hen.mpr h3]
    · intro h; rw [h] at h3; cases h3
  · refine ⟨{ apu with
        Registers := { Control := v, Status := apu.Registers.Status &&& compl8 DMCInterrupt },
        Noise := { apu.Noise with LengthCounter := 0 } },
      ?_, rfl, hbits, fun _ => rfl, fun h => absurd h h3⟩
    have hz : v &&& EnableNoise = 0 := by
      by_contra h
      exact h3 (hen.mp h)
    simp [APU.Store, APU.control, hz]

theorem Store_control_witness :
    NewAPU.Registers.Status < 256 ∧
    ∃ apu1, NewAPU.Store 0x4015 0x08 = some (apu1, NewAPU.Registers.Control) ∧
      apu1.Registers.Control = 0x08 ∧
      (∀ i, apu1.Registers.Status.testBit i =
        (decide (i ≠ 7) && NewAPU.Registers.Status.testBit i)) ∧
      (Nat.testBit 0x08 3 = false → apu1.Noise.LengthCounter = 0) ∧
      (Nat.testBit 0x08 3 = true → apu1.Noise.LengthCounter = NewAPU.Noise.LengthCounter) :=
  ⟨by decide, Store_control NewAPU 0x08 (by decide)⟩

/-! ## Linear counter -/

/-- C16: `LinearCounter.Clock` sets `Counter` to `ReloadValue` when `Halt` is set, and
otherwise decrements `Counter` by 1 if it is greater than 0 and leaves it at 0 if it is
0; afterwards `Halt` is false unless `Control` is set (then `Halt` is unchanged);
`ReloadValue` and `Control` are unchanged and the value returned is the new `Counter`. -/
theorem LinearCounter_Clock_eq (linearCounter : LinearCounter) :
    linearCounter.Clock.1 =
      { Control := linearCounter.Control,
        Halt := if linearCounter.Control then linearCounter.Halt else false,
        ReloadValue := linearCounter.ReloadValue,
        Counter :=
          if linearCounter.Halt then linearCounter.ReloadValue
          else if linearCounter.Counter > 0 then linearCounter.Counter - 1
          else 0 } ∧
    linearCounter.Clock.2 = linearCounter.Clock.1.Counter := by
  obtain ⟨control, halt, reload, counter⟩ := linearCounter
  refine ⟨?_, rfl⟩
  cases control <;> cases halt <;> by_cases hc : counter > 0 <;>
    simp [LinearCounter.Clock, hc] <;> omega

/-! ## Frame counter sequence -/

/-- One call of `FrameCounter.Clock`, by cases on the new cycle count. -/
theorem FrameCounter_Clock_eq (frameCounter : FrameCounter) :
    frameCounter.Clock =
      if (frameCounter.Cycles + 1) % 65536 = 7458 ∨ (frameCounter.Cycles + 1) % 65536 = 14914 ∨
          (frameCounter.Cycles + 1) % 65536 = 22372 ∨ (frameCounter.Cycles + 1) % 65536 = 29830 ∨
          (frameCounter.Cycles + 1) % 65536 = 37282 then
        ({ frameCounter with
            Cycles := (frameCounter.Cycles + 1) % 65536,
            Step := (frameCounter.Step + 1) % 256 },
          true, (frameCounter.Step + 1) % 256)
      else
        ({ frameCounter with Cycles := (frameCounter.Cycles + 1) % 65536 },
          false, frameCounter.Step) := by
  unfold FrameCounter.Clock
  simp only [Nat.reducePow, Nat.reduceMul]
  split_ifs with h1 h2 h3
  · rfl
  · exact absurd (show frameCounter.Step ≠ (frameCounter.Step + 1) % 256 by omega) h2
  · exact absurd rfl h3
  · rfl

/-- The frame counter `k` calls of `Clock` after a reset, for `k` up to the last step
of the sequence. -/
theorem ClockN_from_reset (frameCounter : FrameCounter) (h0 : frameCounter.Cycles = 0)
    (hs : frameCounter.Step = 0) (k : Nat) (hk : k ≤ 37282) :
    FrameCounter.ClockN k frameCounter =
      { frameCounter with
        Cycles := k,
        Step :=
          if k < 7458 then 0 else if k < 14914 then 1 else if k < 22372 then 2
          else if k < 29830 then 3 else if k < 37282 then 4 else 5 } := by
  induction k with
  | zero =>
    obtain ⟨r, i, n, st, c⟩ := frameCounter
    simp only at h0 hs
    subst h0 hs
    rfl
  | succ k ih =>
    have hmod : (k + 1) % 65536 = k + 1 := Nat.mod_eq_of_lt (by omega)
    rw [FrameCounter.ClockN, ih (by omega), FrameCounter_Clock_eq]
    simp only [hmod]
    split_ifs <;> first
      | omega
      | rfl

/-- What the `k`-th call of `Clock` after a reset reports. -/
theorem kth_Clock_from_reset (frameCounter : FrameCounter) (h0 : frameCounter.Cycles = 0)
    (hs : frameCounter.Step = 0) (k : Nat) (hk1 : 1 ≤ k) (hk2 : k ≤ 37282) :
    (FrameCounter.ClockN (k - 1) frameCounter).Clock.2 =
      if k = 7458 then (true, 1) else if k = 14914 then (true, 2)
      else if k = 22372 then (true, 3) else if k = 29830 then (true, 4)
      else if k = 37282 then (true, 5)
      else (false,
        if k < 7458 then 0 else if k < 14914 then 1 else if k < 22372 then 2
        else if k < 29830 then 3 else 4) := by
  have hmod : (k - 1 + 1) % 65536 = k := by
    rw [Nat.sub_add_cancel hk1]
    exact Nat.mod_eq_of_lt (by omega)
  rw [ClockN_from_reset frameCounter h0 hs (k - 1) (by omega), FrameCounter_Clock_eq]
  simp only [hmod]
  generalize hS : (if k - 1 < 7458 then 0 else if k - 1 < 14914 then 1
    else if k - 1 < 22372 then 2 else if k - 1 < 29830 then 3
    else if k - 1 < 37282 then 4 else 5) = st
  have hst : st = if k ≤ 7458 then 0 else if k ≤ 14914 then 1 else if k ≤ 22372 then 2
      else if k ≤ 29830 then 3 else if k ≤ 37282 then 4 else 5 := by
    rw [← hS]
    split_ifs <;> omega
  subst hst
  by_cases h1 : k = 7458
  · subst h1; rfl
  by_cases h2 : k = 14914
  · subst h2; rfl
  by_cases h3 : k = 22372
  · subst h3; rfl
  by_cases h4 : k = 29830
  · subst h4; rfl
  by_cases h5 : k = 37282
  · subst h5; rfl
  rw [if_neg (by omega), if_neg h1, if_neg h2, if_neg h3, if_neg h4, if_neg h5]
  simp only [Prod.mk.injEq, true_and]
  split_ifs <;> omega

/-- C11 (counterexample): after a reset the 7457th call of `Clock` reports no step
change, and the 7458th call, which is not in the claimed list, reports the change to
step 1. -/
theorem FrameCounter_Clock_7457_no_change :
    (FrameCounter.ClockN (7457 - 1) NewAPU.FrameCounter).Clock.2 = (false, 0) ∧
    (FrameCounter.ClockN (7458 - 1) NewAPU.FrameCounter).Clock.2 = (true, 1) :=
  ⟨kth_Clock_from_reset NewAPU.FrameCounter rfl rfl 7457 (by decide) (by decide),
    kth_Clock_from_reset NewAPU.FrameCounter rfl rfl 7458 (by decide) (by decide)⟩

/-- C11 (amended): starting from a reset frame counter (`Cycles = 0`, `Step = 0`), for
every `k` from 1 to 37282 the `k`-th call of `FrameCounter.Clock` reports a step change
if and only if `k` is one of 7458, 14914, 22372, 29830, 37282, and the new step reported
at those calls is 1, 2, 3, 4, 5 respectively. -/
theorem FrameCounter_Clock_step_changes (frameCounter : FrameCounter)
    (h0 : frameCounter.Cycles = 0) (hs : frameCounter.Step = 0)
    (k : Nat) (hk1 : 1 ≤ k) (hk2 : k ≤ 37282) :
    ((FrameCounter.ClockN (k - 1) frameCounter).Clock.2.1 = true ↔
      k = 7458 ∨ k = 14914 ∨ k = 22372 ∨ k = 29830 ∨ k = 37282) ∧
    (k = 7458 → (FrameCounter.ClockN (k - 1) frameCounter).Clock.2.2 = 1) ∧
    (k = 14914 → (FrameCounter.ClockN (k - 1) frameCounter).Clock.2.2 = 2) ∧
    (k = 22372 → (FrameCounter.ClockN (k - 1) frameCounter).Clock.2.2 = 3) ∧
    (k = 29830 → (FrameCounter.ClockN (k - 1) frameCounter).Clock.2.2 = 4) ∧
    (k = 37282 → (FrameCounter.ClockN (k - 1) frameCounter).Clock.2.2 = 5) := by
  rw [kth_Clock_from_reset frameCounter h0 hs k hk1 hk2]
  refine ⟨?_, ?_, ?_, ?_, ?_, ?_⟩
  · split_ifs <;> simp <;> omega
  all_goals
    intro h
    subst h
    rfl

theorem FrameCounter_Clock_step_changes_witness :
    NewAPU.FrameCounter.Cycles = 0 ∧ NewAPU.FrameCounter.Step = 0 ∧ 1 ≤ 29830 ∧
    29830 ≤ 37282 ∧
    (FrameCounter.ClockN (29830 - 1) NewAPU.FrameCounter).Clock.2.1 = true ∧
    (FrameCounter.ClockN (29830 - 1) NewAPU.FrameCounter).Clock.2.2 = 4 :=
  ⟨rfl, rfl, by decide, by decide,
    (FrameCounter_Clock_step_changes NewAPU.FrameCounter rfl rfl 29830 (by decide)
      (by decide)).1.mpr (by decide),
    (FrameCounter_Clock_step_changes NewAPU.FrameCounter rfl rfl 29830 (by decide)
      (by decide)).2.2.2.2.1 rfl⟩

/-! ## Invariants of reachable states -/

theorem switchStep_preserves {P : APU → Prop} (hP : StepInvariant P) (a : APU) (step : Nat)
    (h : P a) : P (a.switchStep step) := by
  have h3 : P a.clockNoiseEnvelope.clockLinearCounter.clockNoiseLengthCounter :=
    hP.lengthCounter _ (hP.linearCounter _ (hP.envelope _ h))
  unfold APU.switchStep
  split
  · exact hP.linearCounter _ (hP.envelope _ h)
  · exact h3
  · exact hP.linearCounter _ (hP.envelope _ h)
  · by_cases hn : a.FrameCounter.NumSteps = 4
    · rw [if_pos hn]
      dsimp only
      split_ifs
      · exact h3
      · exact hP.frameInterrupt _ h3
    · rw [if_neg hn]
      exact h
  · split_ifs
    · exact h3
    · exact h
  · exact h

theorem ExecuteFrameCounter_preserves {P : APU → Prop} (hP : StepInvariant P) (a : APU)
    (h : P a) : P a.ExecuteFrameCounter := by
  unfold APU.ExecuteFrameCounter
  generalize a.FrameCounter.Clock = c
  obtain ⟨fc, changed, step⟩ := c
  have h1 : P { a with FrameCounter := fc } := hP.frameCounter a fc h
  have h2 := switchStep_preserves hP _ step h1
  simp only
  split_ifs
  · exact hP.frameCounter _ _ h2
  · exact h2
  · exact h1

theorem Sample_eq_some (mix : Nat → Nat → Int) (a a1 : APU) (sample : Int)
    (h : a.Sample mix = some (a1, sample)) :
    ∃ x y, a1 = { a with HipassStrong := x, HipassWeak := y } := by
  unfold APU.Sample at h
  simp only at h
  split_ifs at h
  simp only [APU.hipassWeak, APU.hipassStrong, Option.some.injEq, Prod.mk.injEq] at h
  exact ⟨_, _, h.1.symm⟩

theorem Execute_preserves {P : APU → Prop} (hP : StepInvariant P) (mix : Nat → Nat → Int)
    (a a1 : APU) (sample : Int) (haveSample : Bool)
    (he : a.Execute mix = some (a1, sample, haveSample)) (h : P a) : P a1 := by
  have h1 := ExecuteFrameCounter_preserves hP a h
  unfold APU.Execute at he
  simp only at he
  generalize a.ExecuteFrameCounter = b at he h1
  have h2 : P (if b.control EnableNoise then { b with Noise := b.Noise.ClockDivider } else b) := by
    split_ifs
    · exact hP.noiseDivider b h1
    · exact h1
  generalize (if b.control EnableNoise then { b with Noise := b.Noise.ClockDivider } else b) = c
    at he h2
  split_ifs at he
  · cases hs : APU.Sample mix { c with Cycles := (c.Cycles + 1) % 2 ^ 64 } with
    | none => rw [hs] at he; cases he
    | some r =>
      obtain ⟨d, smp⟩ := r
      rw [hs] at he
      simp only [Option.some.injEq, Prod.mk.injEq] at he
      obtain ⟨x, y, hd⟩ := Sample_eq_some mix _ _ _ hs
      rw [← he.1, hd]
      exact hP.cycles _ _ _ (hP.hipass _ x y (hP.cycles c _ c.TargetCycles h2))
  · simp only [Option.some.injEq, Prod.mk.injEq] at he
    rw [← he.1]
    exact hP.cycles c _ c.TargetCycles h2

theorem Triangle_Store_eq_some (t t1 : Triangle) (index value oldValue : Nat)
    (h : t.Store index value = some (t1, oldValue)) :
    t1 = { t with Registers := t.Registers.set index value } ∧
    t.Registers.get? index = some oldValue := by
  unfold Triangle.Store at h
  split at h
  · cases h
  · rename_i o ho
    simp only [Option.some.injEq, Prod.mk.injEq] at h
    exact ⟨h.1.symm, by rw [ho, h.2]⟩

theorem Store_preserves {P : APU → Prop} (hP : StepInvariant P) (a a1 : APU)
    (address value oldValue : Nat) (hv : value < 256)
    (hst : a.Store address value = some (a1, oldValue)) (h : P a) : P a1 := by
  have hsame : some (a, 0) = some (a1, oldValue) → P a1 := by
    intro e
    simp only [Option.some.injEq, Prod.mk.injEq] at e
    rw [← e.1]
    exact h
  have htri : ∀ index t o, a.Triangle.Store index value = some (t, o) →
      P { a with Triangle := t } := by
    intro index t o ht
    rw [(Triangle_Store_eq_some _ _ _ _ _ ht).1]
    exact hP.triangle _ _ h
  have hnoise : ∀ index n o, a.Noise.Store index value = some (n, o) →
      P { a with Noise := n } :=
    fun index n o hn => hP.noiseStore a index value n o h hv hn
  unfold APU.Store at hst
  by_cases c1 : address ≥ 0x4000 ∧ address ≤ 0x4003
  · rw [if_pos c1] at hst
    cases hp : a.Pulse1.Store (address - 0x4000) value with
    | none => rw [hp] at hst; cases hst
    | some r =>
      obtain ⟨q, o⟩ := r
      rw [hp] at hst
      simp only [Option.some.injEq, Prod.mk.injEq] at hst
      rw [← hst.1]
      exact hP.pulse1 _ _ h
  rw [if_neg c1] at hst
  by_cases c2 : address ≥ 0x4004 ∧ address ≤ 0x4007
  · rw [if_pos c2] at hst
    cases hp : a.Pulse2.Store (address - 0x4004) value with
    | none => rw [hp] at hst; cases hst
    | some r =>
      obtain ⟨q, o⟩ := r
      rw [hp] at hst
      simp only [Option.some.injEq, Prod.mk.injEq] at hst
      rw [← hst.1]
      exact hP.pulse2 _ _ h
  rw [if_neg c2] at hst
  by_cases c3 : address ≥ 0x4008 ∧ address ≤ 0x400b
  · rw [if_pos c3] at hst
    have hcase : address = 0x4008 ∨ address = 0x4009 ∨ address = 0x400a ∨ address = 0x400b := by
      omega
    rcases hcase with e | e | e | e <;> subst e <;> simp only [] at hst
    all_goals first
      | exact hsame hst
      | (split at hst
         · cases hst
         · rename_i t o ht
           simp only [Option.some.injEq, Prod.mk.injEq] at hst
           rw [← hst.1]
           exact htri _ _ _ ht)
  rw [if_neg c3] at hst
  by_cases c4 : address ≥ 0x400c ∧ address ≤ 0x400f
  · rw [if_pos c4] at hst
    have hcase : address = 0x400c ∨ address = 0x400d ∨ address = 0x400e ∨ address = 0x400f := by
      omega
    rcases hcase with e | e | e | e <;> subst e <;> simp only [] at hst
    all_goals first
      | exact hsame hst
      | (split at hst
         · cases hst
         · rename_i n o hn
           simp only [Option.some.injEq, Prod.mk.injEq] at hst
           rw [← hst.1]
           exact hnoise _ _ _ hn)
  rw [if_neg c4] at hst
  by_cases c5 : address ≥ 0x4010 ∧ address ≤ 0x4013
  · rw [if_pos c5] at hst
    cases hp : a.DMC.Store (address - 0x4010) value with
    | none => rw [hp] at hst; cases hst
    | some r =>
      obtain ⟨q, o⟩ := r
      rw [hp] at hst
      simp only [Option.some.injEq, Prod.mk.injEq] at hst
      rw [← hst.1]
      exact hP.dmc _ _ h
  rw [if_neg c5] at hst
  by_cases c6 : address = 0x4015
  · rw [if_pos c6] at hst
    dsimp only at hst
    split_ifs at hst
    · simp only [Option.some.injEq, Prod.mk.injEq] at hst
      rw [← hst.1]
      exact hP.control a value h hv
    · simp only [Option.some.injEq, Prod.mk.injEq] at hst
      rw [← hst.1]
      exact hP.lengthCounterZero _ (hP.control a value h hv)
  rw [if_neg c6] at hst
  by_cases c7 : address = 0x4017
  · rw [if_pos c7] at hst
    dsimp only at hst
    split_ifs at hst
    · simp only [Option.some.injEq, Prod.mk.injEq] at hst
      rw [← hst.1]
      exact ExecuteFrameCounter_preserves hP _ (hP.frameCounter a _ h)
    · simp only [Option.some.injEq, Prod.mk.injEq] at hst
      rw [← hst.1]
      exact hP.frameCounter a _ h
  rw [if_neg c7] at hst
  exact hsame hst

theorem Fetch_preserves {P : APU → Prop} (hP : StepInvariant P) (a : APU) (address : Nat)
    (h : P a) : P (a.Fetch address).1 := by
  unfold APU.Fetch
  split
  · exact hP.fetchStatus a h
  · exact h

/-- A step invariant that holds after `Reset` of a new APU holds in every reachable
state. -/
theorem Reachable_invariant {P : APU → Prop} (hP : StepInvariant P) (h0 : P NewAPU.Reset)
    (mix : Nat → Nat → Int) (apu : APU) (hr : Reachable mix apu) : P apu := by
  induction hr with
  | init => exact h0
  | store address value _ _ hv hst ih => exact Store_preserves hP _ _ address value _ hv hst ih
  | fetch address _ _ ih => exact Fetch_preserves hP _ address ih
  | execute _ he ih => exact Execute_preserves hP mix _ _ _ _ he ih

/-! ## Status bit of the noise channel -/

theorem lengthLoadedAPU_reachable (mix : Nat → Nat → Int) : Reachable mix lengthLoadedAPU :=
  Reachable.store 0x400F 0x08 Reachable.init (by decide) (by decide)
    (show NewAPU.Reset.Store 0x400F 0x08 = some (lengthLoadedAPU, 0) from rfl)

/-- C13 (counterexample): after `Reset` and `Store(0x400F, 0x08)` the noise length counter
is 254, yet `Fetch(0x4015)` returns 0, with bit 3 clear. -/
theorem status_bit3_counterexample :
    NewAPU.Reset.Store 0x400F 0x08 = some (lengthLoadedAPU, 0) ∧
    Reachable (fun _ _ => 0) lengthLoadedAPU ∧
    lengthLoadedAPU.Noise.LengthCounter = 254 ∧
    (lengthLoadedAPU.Fetch 0x4015).2 = 0 ∧
    ¬ ((lengthLoadedAPU.Fetch 0x4015).2.testBit 3 = true ↔
      lengthLoadedAPU.Noise.LengthCounter ≠ 0) :=
  ⟨rfl, lengthLoadedAPU_reachable _, rfl, rfl, by decide⟩

theorem status_bit3_invariant :
    StepInvariant (fun a : APU => a.Registers.Status.testBit 3 = false) where
  frameCounter := fun _ _ h => h
  envelope := fun _ h => h
  linearCounter := fun _ h => h
  lengthCounter := fun _ h => h
  frameInterrupt := fun a h => by
    show (a.Registers.Status ||| FrameInterrupt).testBit 3 = false
    rw [Nat.testBit_or, h]
    rfl
  noiseDivider := fun _ h => h
  cycles := fun _ _ _ h => h
  hipass := fun _ _ _ h => h
  pulse1 := fun _ _ h => h
  pulse2 := fun _ _ h => h
  triangle := fun _ _ h => h
  dmc := fun _ _ h => h
  noiseStore := fun _ _ _ _ _ h _ _ => h
  control := fun a v h _ => by
    show (a.Registers.Status &&& compl8 DMCInterrupt).testBit 3 = false
    rw [Nat.testBit_and, h]
    rfl
  lengthCounterZero := fun _ h => h
  fetchStatus := fun a h => by
    show (a.Registers.Status &&& compl8 FrameInterrupt).testBit 3 = false
    rw [Nat.testBit_and, h]
    rfl

/-- C13 (amended): in every APU state reachable from a newly constructed and reset APU by
`Store`, `Fetch` and `Execute` calls, bit 3 of the value returned by `Fetch(0x4015)` is
clear, whether or not the noise length counter is non-zero. -/
theorem Fetch_status_bit3_clear (mix : Nat → Nat → Int) (apu : APU)
    (hr : Reachable mix apu) : (apu.Fetch 0x4015).2.testBit 3 = false :=
  Reachable_invariant status_bit3_invariant rfl mix apu hr

theorem Fetch_status_bit3_clear_witness :
    Reachable (fun _ _ => 0) lengthLoadedAPU ∧
    (lengthLoadedAPU.Fetch 0x4015).2.testBit 3 = false :=
  ⟨lengthLoadedAPU_reachable _,
    Fetch_status_bit3_clear (fun _ _ => 0) lengthLoadedAPU (lengthLoadedAPU_reachable _)⟩

/-! ## Range of the channel outputs -/

theorem Envelope_Clock_Counter_le (envelope : Envelope) (h : envelope.Counter ≤ 15) :
    envelope.Clock.1.Counter ≤ 15 := by
  simp only [Envelope.Clock]
  split_ifs <;> first | omega | (dsimp only; omega)

theorem Noise_ClockLengthCounter_Envelope (noise : Noise) :
    noise.ClockLengthCounter.Envelope = noise.Envelope := by
  unfold Noise.ClockLengthCounter
  split_ifs <;> rfl

theorem Noise_ClockDivider_Envelope (noise : Noise) :
    noise.ClockDivider.Envelope = noise.Envelope := by
  unfold Noise.ClockDivider
  simp only
  split_ifs <;> rfl

theorem Noise_Store_Envelope_Counter_le (noise n : Noise) (index value oldValue : Nat)
    (hst : noise.Store index value = some (n, oldValue)) (h : noise.Envelope.Counter ≤ 15) :
    n.Envelope.Counter ≤ 15 := by
  have h15 : ∀ x : Nat, x &&& 0x0f ≤ 15 := fun x => Nat.and_le_right
  rcases index with _ | _ | _ | k
  · simp only [Noise.Store, Array3.get?, Array3.set, Noise.registers, Option.some.injEq,
      Prod.mk.injEq] at hst
    rw [← hst.1]
    exact h15 _
  · simp only [Noise.Store, Array3.get?, Array3.set, Noise.registers] at hst
    split at hst
    · cases hst
    · simp only [Option.some.injEq, Prod.mk.injEq] at hst
      rw [← hst.1]
      exact h
  · simp only [Noise.Store, Array3.get?, Array3.set, Noise.registers] at hst
    split at hst
    · cases hst
    · simp only [Option.some.injEq, Prod.mk.injEq] at hst
      rw [← hst.1]
      exact h
  · simp [Noise.Store, Array3.get?] at hst

theorem envelope_counter_invariant :
    StepInvariant (fun a : APU => a.Noise.Envelope.Counter ≤ 15) where
  frameCounter := fun _ _ h => h
  envelope := fun a h => Envelope_Clock_Counter_le a.Noise.Envelope h
  linearCounter := fun _ h => h
  lengthCounter := fun a h => by
    show a.Noise.ClockLengthCounter.Envelope.Counter ≤ 15
    rw [Noise_ClockLengthCounter_Envelope]
    exact h
  frameInterrupt := fun _ h => h
  noiseDivider := fun a h => by
    show a.Noise.ClockDivider.Envelope.Counter ≤ 15
    rw [Noise_ClockDivider_Envelope]
    exact h
  cycles := fun _ _ _ h => h
  hipass := fun _ _ _ h => h
  pulse1 := fun _ _ h => h
  pulse2 := fun _ _ h => h
  triangle := fun _ _ h => h
  dmc := fun _ _ h => h
  noiseStore := fun a index value n oldValue h _ hst =>
    Noise_Store_Envelope_Counter_le a.Noise n index value oldValue hst h
  control := fun _ _ h _ => h
  lengthCounterZero := fun _ h => h
  fetchStatus := fun _ h => h

theorem Noise_Sample_range (noise : Noise) (h : noise.Envelope.Counter ≤ 15) :
    0 ≤ noise.Sample ∧ noise.Sample ≤ 15 := by
  have h15 : noise.Registers.r0 &&& 0x0f ≤ 15 := Nat.and_le_right
  unfold Noise.Sample Noise.registers
  split_ifs <;> first | omega | (dsimp only; omega)

/-- C19: in every APU state reachable from a newly constructed and reset APU by `Store`,
`Fetch` and `Execute` calls, the noise envelope counter is at most 15, so `Noise.Sample`
returns a value in the range 0..15; the pulse, triangle and DMC `Sample` functions
return 0. -/
theorem Sample_ranges (mix : Nat → Nat → Int) (apu : APU) (hr : Reachable mix apu) :
    apu.Noise.Envelope.Counter ≤ 15 ∧
    (0 ≤ apu.Noise.Sample ∧ apu.Noise.Sample ≤ 15) ∧
    apu.Pulse1.Sample = 0 ∧ apu.Pulse2.Sample = 0 ∧
    apu.Triangle.Sample = 0 ∧ apu.DMC.Sample = 0 := by
  have hc : apu.Noise.Envelope.Counter ≤ 15 :=
    Reachable_invariant envelope_counter_invariant (by decide) mix apu hr
  exact ⟨hc, Noise_Sample_range apu.Noise hc, rfl, rfl, rfl, rfl⟩

theorem Sample_ranges_witness :
    Reachable (fun _ _ => 0) lengthLoadedAPU ∧
    lengthLoadedAPU.Noise.Envelope.Counter ≤ 15 ∧
    (0 ≤ lengthLoadedAPU.Noise.Sample ∧ lengthLoadedAPU.Noise.Sample ≤ 15) :=
  ⟨lengthLoadedAPU_reachable _,
    (Sample_ranges (fun _ _ => 0) lengthLoadedAPU (lengthLoadedAPU_reachable _)).1,
    (Sample_ranges (fun _ _ => 0) lengthLoadedAPU (lengthLoadedAPU_reachable _)).2.1⟩

/-! ## Stores to $4017 -/

/-- C14 (code evaluated at the failing input): on the reset APU, `Store(0x4017, 0x80)`
(5-step mode) leaves the noise channel as it was and the frame counter at `Cycles = 1`,
while clocking the noise envelope and length counter once would change the channel. -/
theorem Store_4017_mode5_no_clock :
    (NewAPU.Reset.Store 0x4017 0x80).map
        (fun r => (r.1.Noise, r.1.FrameCounter.Cycles, r.1.FrameCounter.Step, r.2)) =
      some (NewAPU.Reset.Noise, 1, 0, 0x80) ∧
    NewAPU.Reset.Noise.ClockEnvelope.ClockLengthCounter ≠ NewAPU.Reset.Noise ∧
    NewAPU.Reset.Noise.ClockLengthCounter.ClockEnvelope ≠ NewAPU.Reset.Noise := by
  refine ⟨rfl, ?_, ?_⟩ <;> decide

/-- C18 (code evaluated at the failing input): on a new APU, `Store(0x4017, 0x00)`
followed by `Store(0x4017, 0x40)` makes the second call return 0x40, the value it is
writing, not the 0x00 written before. -/
theorem Store_4017_returns_new_value :
    ((NewAPU.Store 0x4017 0x00).bind (fun r => r.1.Store 0x4017 0x40)).map Prod.snd =
      some 0x40 ∧
    (0x40 : Nat) ≠ 0x00 := by
  refine ⟨rfl, by decide⟩

/-! ## What a frame step clocks -/

/-- The `switch step` statement clocks the noise envelope and the triangle linear counter
once each on steps 1, 2, 3, on step 4 when `NumSteps = 4` and on step 5 when
`NumSteps = 5`, and leaves both as they are otherwise. -/
theorem switchStep_clocks (a : APU) (step : Nat) :
    (a.switchStep step).Noise.Envelope =
      (if step = 1 ∨ step = 2 ∨ step = 3 ∨ (step = 4 ∧ a.FrameCounter.NumSteps = 4) ∨
          (step = 5 ∧ a.FrameCounter.NumSteps = 5)
        then a.Noise.Envelope.Clock.1 else a.Noise.Envelope) ∧
    (a.switchStep step).Triangle.LinearCounter =
      (if step = 1 ∨ step = 2 ∨ step = 3 ∨ (step = 4 ∧ a.FrameCounter.NumSteps = 4) ∨
          (step = 5 ∧ a.FrameCounter.NumSteps = 5)
        then a.Triangle.LinearCounter.Clock.1 else a.Triangle.LinearCounter) := by
  rcases step with _ | _ | _ | _ | _ | _ | k
  · simp [APU.switchStep]
  · simp [APU.switchStep, APU.clockNoiseEnvelope, APU.clockLinearCounter, Noise.ClockEnvelope]
  · simp [APU.switchStep, Noise_ClockLengthCounter_Envelope, APU.clockNoiseEnvelope, APU.clockLinearCounter,
      APU.clockNoiseLengthCounter, Noise.ClockEnvelope]
  · simp [APU.switchStep, APU.clockNoiseEnvelope, APU.clockLinearCounter, Noise.ClockEnvelope]
  · by_cases hn : a.FrameCounter.NumSteps = 4
    · by_cases hi : a.FrameCounter.IRQInhibit = true <;>
        simp [APU.switchStep, Noise_ClockLengthCounter_Envelope, hn, hi, APU.clockNoiseEnvelope, APU.clockLinearCounter,
          APU.clockNoiseLengthCounter, Noise.ClockEnvelope]
    · simp [APU.switchStep, hn]
  · by_cases hn : a.FrameCounter.NumSteps = 5
    · simp [APU.switchStep, Noise_ClockLengthCounter_Envelope, hn, APU.clockNoiseEnvelope, APU.clockLinearCounter,
        APU.clockNoiseLengthCounter, Noise.ClockEnvelope]
    · simp [APU.switchStep, hn]
  · simp [APU.switchStep]

theorem switchStep_fields (a : APU) (step : Nat) :
    (a.switchStep step).FrameCounter = a.FrameCounter ∧
    (a.switchStep step).Cycles = a.Cycles ∧
    (a.switchStep step).TargetCycles = a.TargetCycles ∧
    (a.switchStep step).Registers.Control = a.Registers.Control := by
  rcases step with _ | _ | _ | _ | _ | _ | k
  · simp [APU.switchStep]
  · simp [APU.switchStep, APU.clockNoiseEnvelope, APU.clockLinearCounter]
  · simp [APU.switchStep, APU.clockNoiseEnvelope, APU.clockLinearCounter,
      APU.clockNoiseLengthCounter]
  · simp [APU.switchStep, APU.clockNoiseEnvelope, APU.clockLinearCounter]
  · by_cases hn : a.FrameCounter.NumSteps = 4
    · by_cases hi : a.FrameCounter.IRQInhibit = true <;>
        simp [APU.switchStep, hn, hi, APU.clockNoiseEnvelope, APU.clockLinearCounter,
          APU.clockNoiseLengthCounter]
    · simp [APU.switchStep, hn]
  · by_cases hn : a.FrameCounter.NumSteps = 5
    · simp [APU.switchStep, hn, APU.clockNoiseEnvelope, APU.clockLinearCounter,
        APU.clockNoiseLengthCounter]
    · simp [APU.switchStep, hn]
  · simp [APU.switchStep]

theorem ExecuteFrameCounter_fields (a : APU) :
    a.ExecuteFrameCounter.Cycles = a.Cycles ∧
    a.ExecuteFrameCounter.TargetCycles = a.TargetCycles ∧
    a.ExecuteFrameCounter.Registers.Control = a.Registers.Control := by
  unfold APU.ExecuteFrameCounter
  generalize a.FrameCounter.Clock = c
  obtain ⟨fc, changed, step⟩ := c
  obtain ⟨-, h2, h3, h4⟩ := switchStep_fields { a with FrameCounter := fc } step
  simp only
  split_ifs
  · exact ⟨h2, h3, h4⟩
  · exact ⟨h2, h3, h4⟩
  · exact ⟨rfl, rfl, rfl⟩

/-- The frame counter after `ExecuteFrameCounter`: clocked once, and reset when the step
it advanced to equals `NumSteps`. -/
theorem ExecuteFrameCounter_FrameCounter (a : APU) :
    a.ExecuteFrameCounter.FrameCounter =
      if a.FrameCounter.Clock.2.1 = true ∧ a.FrameCounter.Clock.2.2 = a.FrameCounter.NumSteps
      then a.FrameCounter.Clock.1.Reset else a.FrameCounter.Clock.1 := by
  have hn := FrameCounter_Clock_NumSteps a.FrameCounter
  unfold APU.ExecuteFrameCounter
  generalize a.FrameCounter.Clock = c at hn
  obtain ⟨fc, changed, step⟩ := c
  obtain ⟨h1, -, -, -⟩ := switchStep_fields { a with FrameCounter := fc } step
  simp only at hn h1 ⊢
  rw [h1, hn]
  cases changed
  · simp
  · by_cases hs : step = a.FrameCounter.NumSteps
    · simp [hs, h1]
    · simp [hs, h1]

/-- The noise envelope and the triangle linear counter after `ExecuteFrameCounter`. -/
theorem ExecuteFrameCounter_clocks_eq (a : APU) :
    a.ExecuteFrameCounter.Noise.Envelope =
      (if a.FrameCounter.Clock.2.1 = true ∧
          (a.FrameCounter.Clock.2.2 = 1 ∨ a.FrameCounter.Clock.2.2 = 2 ∨
            a.FrameCounter.Clock.2.2 = 3 ∨
            (a.FrameCounter.Clock.2.2 = 4 ∧ a.FrameCounter.NumSteps = 4) ∨
            (a.FrameCounter.Clock.2.2 = 5 ∧ a.FrameCounter.NumSteps = 5))
        then a.Noise.Envelope.Clock.1 else a.Noise.Envelope) ∧
    a.ExecuteFrameCounter.Triangle.LinearCounter =
      (if a.FrameCounter.Clock.2.1 = true ∧
          (a.FrameCounter.Clock.2.2 = 1 ∨ a.FrameCounter.Clock.2.2 = 2 ∨
            a.FrameCounter.Clock.2.2 = 3 ∨
            (a.FrameCounter.Clock.2.2 = 4 ∧ a.FrameCounter.NumSteps = 4) ∨
            (a.FrameCounter.Clock.2.2 = 5 ∧ a.FrameCounter.NumSteps = 5))
        then a.Triangle.LinearCounter.Clock.1 else a.Triangle.LinearCounter) := by
  have hn := FrameCounter_Clock_NumSteps a.FrameCounter
  unfold APU.ExecuteFrameCounter
  generalize a.FrameCounter.Clock = c at hn
  obtain ⟨fc, changed, step⟩ := c
  obtain ⟨h1, h2⟩ := switchStep_clocks { a with FrameCounter := fc } step
  simp only at hn h1 h2 ⊢
  rw [hn] at h1 h2
  cases changed
  · simp
  · simp only [true_and, if_true]
    split_ifs at h1 h2 ⊢ <;> exact ⟨h1, h2⟩

/-- C17 (amended): each time the frame counter advances to a new step (`Clock` reports a
change), `ExecuteFrameCounter` clocks the noise envelope exactly once and the triangle
linear counter exactly once when the new step is 1, 2 or 3, when it is 4 and `NumSteps`
is 4, and when it is 5 and `NumSteps` is 5; on any other advance (such as step 4 when
`NumSteps` is not 4) it leaves both unchanged. -/
theorem ExecuteFrameCounter_step_clocks (a : APU)
    (hch : a.FrameCounter.Clock.2.1 = true) :
    ((a.FrameCounter.Clock.2.2 = 1 ∨ a.FrameCounter.Clock.2.2 = 2 ∨
        a.FrameCounter.Clock.2.2 = 3 ∨
        (a.FrameCounter.Clock.2.2 = 4 ∧ a.FrameCounter.NumSteps = 4) ∨
        (a.FrameCounter.Clock.2.2 = 5 ∧ a.FrameCounter.NumSteps = 5)) →
      a.ExecuteFrameCounter.Noise.Envelope = a.Noise.Envelope.Clock.1 ∧
      a.ExecuteFrameCounter.Triangle.LinearCounter = a.Triangle.LinearCounter.Clock.1) ∧
    (¬ (a.FrameCounter.Clock.2.2 = 1 ∨ a.FrameCounter.Clock.2.2 = 2 ∨
        a.FrameCounter.Clock.2.2 = 3 ∨
        (a.FrameCounter.Clock.2.2 = 4 ∧ a.FrameCounter.NumSteps = 4) ∨
        (a.FrameCounter.Clock.2.2 = 5 ∧ a.FrameCounter.NumSteps = 5)) →
      a.ExecuteFrameCounter.Noise.Envelope = a.Noise.Envelope ∧
      a.ExecuteFrameCounter.Triangle.LinearCounter = a.Triangle.LinearCounter) := by
  obtain ⟨h1, h2⟩ := ExecuteFrameCounter_clocks_eq a
  constructor
  · intro hc
    rw [if_pos ⟨hch, hc⟩] at h1 h2
    exact ⟨h1, h2⟩
  · intro hc
    rw [if_neg (fun h => hc h.2)] at h1 h2
    exact ⟨h1, h2⟩

theorem ExecuteFrameCounter_step_clocks_witness :
    stepDueAPU.FrameCounter.Clock.2 = (true, 1) ∧
    stepDueAPU.ExecuteFrameCounter.Noise.Envelope = stepDueAPU.Noise.Envelope.Clock.1 ∧
    stepDueAPU.ExecuteFrameCounter.Triangle.LinearCounter =
      stepDueAPU.Triangle.LinearCounter.Clock.1 :=
  ⟨by decide,
    (ExecuteFrameCounter_step_clocks stepDueAPU (by decide)).1 (Or.inl (by decide))⟩

/-! ## Runs of `Execute` -/

theorem ExecuteN_succ (mix : Nat → Nat → Int) (n : Nat) (a : APU) :
    APU.ExecuteN mix (n + 1) a =
      (APU.ExecuteN mix n a).bind (fun b => (b.Execute mix).map (fun r => r.1)) := by
  induction n generalizing a with
  | zero =>
    simp only [APU.ExecuteN, Option.some_bind]
    cases a.Execute mix with
    | none => rfl
    | some r => rfl
  | succ n ih =>
    rw [APU.ExecuteN]
    cases he : a.Execute mix with
    | none => simp [APU.ExecuteN, he]
    | some r =>
      obtain ⟨a1, sample, haveSample⟩ := r
      simp only [ih a1]
      conv_rhs => rw [APU.ExecuteN, he]

/-- The state left by a call of `Execute` that returns: the state after
`ExecuteFrameCounter` with the noise channel possibly clocked, the cycle counters advanced
and the filter accumulators possibly changed. -/
theorem Execute_eq_some (mix : Nat → Nat → Int) (a a1 : APU) (sample : Int)
    (haveSample : Bool) (he : a.Execute mix = some (a1, sample, haveSample)) :
    haveSample =
      decide ((a.ExecuteFrameCounter.Cycles + 1) % 2 ^ 64 = a.ExecuteFrameCounter.TargetCycles) ∧
    ∃ n x y,
      (n = a.ExecuteFrameCounter.Noise ∨ n = a.ExecuteFrameCounter.Noise.ClockDivider) ∧
      (a.ExecuteFrameCounter.control EnableNoise = false → n = a.ExecuteFrameCounter.Noise) ∧
      a1 =
        { a.ExecuteFrameCounter with
          Noise := n,
          Cycles := if haveSample then 0 else (a.ExecuteFrameCounter.Cycles + 1) % 2 ^ 64,
          TargetCycles :=
            if haveSample then a.ExecuteFrameCounter.TargetCycles ^^^ 0x1
            else a.ExecuteFrameCounter.TargetCycles,
          HipassStrong := x,
          HipassWeak := y } := by
  unfold APU.Execute at he
  simp only at he
  generalize a.ExecuteFrameCounter = b at he ⊢
  have key : ∀ c : APU, c.Cycles = b.Cycles → c.TargetCycles = b.TargetCycles →
      (if (c.Cycles + 1) % 2 ^ 64 = c.TargetCycles then
          match APU.Sample mix { c with Cycles := (c.Cycles + 1) % 2 ^ 64 } with
          | none => none
          | some (apu, sample) =>
            some ({ apu with Cycles := 0, TargetCycles := apu.TargetCycles ^^^ 0x1 }, sample, true)
        else some ({ c with Cycles := (c.Cycles + 1) % 2 ^ 64 }, 0, false)) =
        some (a1, sample, haveSample) →
      haveSample = decide ((b.Cycles + 1) % 2 ^ 64 = b.TargetCycles) ∧
      ∃ x y, a1 =
        { c with
          Cycles := if haveSample then 0 else (b.Cycles + 1) % 2 ^ 64,
          TargetCycles := if haveSample then b.TargetCycles ^^^ 0x1 else b.TargetCycles,
          HipassStrong := x,
          HipassWeak := y } := by
    intro c hc1 hc2 hk
    by_cases hcy : (b.Cycles + 1) % 2 ^ 64 = b.TargetCycles
    · have hcy1 : (c.Cycles + 1) % 2 ^ 64 = c.TargetCycles := by rw [hc1, hc2]; exact hcy
      rw [if_pos hcy1] at hk
      cases hs : APU.Sample mix { c with Cycles := (c.Cycles + 1) % 2 ^ 64 } with
      | none => rw [hs] at hk; cases hk
      | some r =>
        obtain ⟨d, smp⟩ := r
        rw [hs] at hk
        simp only [Option.some.injEq, Prod.mk.injEq] at hk
        obtain ⟨x, y, hd⟩ := Sample_eq_some mix _ _ _ hs
        obtain ⟨hk1, -, hk3⟩ := hk
        subst hk3
        refine ⟨(decide_eq_true hcy).symm, x, y, ?_⟩
        rw [← hk1, hd]
        simp [hc1, hc2]
    · have hcy1 : ¬ (c.Cycles + 1) % 2 ^ 64 = c.TargetCycles := by rw [hc1, hc2]; exact hcy
      rw [if_neg hcy1] at hk
      simp only [Option.some.injEq, Prod.mk.injEq] at hk
      obtain ⟨hk1, -, hk3⟩ := hk
      subst hk3
      refine ⟨(decide_eq_false hcy).symm, c.HipassStrong, c.HipassWeak, ?_⟩
      rw [← hk1]
      simp [hc1, hc2]
  by_cases hen : b.control EnableNoise = true
  · rw [if_pos hen] at he
    obtain ⟨h1, x, y, h2⟩ := key { b with Noise := b.Noise.ClockDivider } rfl rfl he
    exact ⟨h1, b.Noise.ClockDivider, x, y, Or.inr rfl,
      (fun hf => by rw [hf] at hen; cases hen), h2⟩
  · rw [if_neg hen] at he
    obtain ⟨h1, x, y, h2⟩ := key b rfl rfl he
    exact ⟨h1, b.Noise, x, y, Or.inl rfl, fun _ => rfl, h2⟩

/-! ## Sample rate -/

/-- One call of `Execute` on a state with a clear status register, `NumSteps = 0`, a
silent noise channel and the noise channel disabled: it returns, reports a sample exactly
when the incremented cycle count meets the target, and advances the two counters. -/
theorem Execute_cycles (mix : Nat → Nat → Int) (b : APU)
    (hs : b.Registers.Status = 0) (hc : b.Registers.Control = 0)
    (hn : b.FrameCounter.NumSteps = 0) (hl : b.Noise.LengthCounter = 0)
    (hcy : b.Cycles + 1 < 2 ^ 64) :
    ∃ a1 sample,
      b.Execute mix = some (a1, sample, decide (b.Cycles + 1 = b.TargetCycles)) ∧
      a1.Registers.Status = 0 ∧ a1.Registers.Control = 0 ∧
      a1.FrameCounter.NumSteps = 0 ∧ a1.Noise.LengthCounter = 0 ∧
      a1.Cycles = (if b.Cycles + 1 = b.TargetCycles then 0 else b.Cycles + 1) ∧
      a1.TargetCycles =
        (if b.Cycles + 1 = b.TargetCycles then b.TargetCycles ^^^ 0x1 else b.TargetCycles) := by
  obtain ⟨a1, sample, haveSample, he, q1, q2, q3⟩ := Execute_quiet mix b hs hn hl
  obtain ⟨f1, f2, f3⟩ := ExecuteFrameCounter_fields b
  obtain ⟨hh, n, x, y, -, -, ha⟩ := Execute_eq_some mix b a1 sample haveSample he
  rw [f1, f2, Nat.mod_eq_of_lt hcy] at hh
  rw [f1, f2, Nat.mod_eq_of_lt hcy] at ha
  have hctl : a1.Registers.Control = 0 := by
    rw [ha]
    exact f3.trans hc
  subst hh
  refine ⟨a1, sample, he, q1, hctl, q2, q3, ?_, ?_⟩
  · rw [ha]
    by_cases h : b.Cycles + 1 = b.TargetCycles <;> simp [h]
  · rw [ha]
    by_cases h : b.Cycles + 1 = b.TargetCycles <;> simp [h]

/-- The cycle counters `n` calls of `Execute` after `NewAPU`. -/
theorem ExecuteN_cycles (mix : Nat → Nat → Int) (n : Nat) :
    ∃ a, APU.ExecuteN mix n NewAPU = some a ∧
      a.Registers.Status = 0 ∧ a.Registers.Control = 0 ∧
      a.FrameCounter.NumSteps = 0 ∧ a.Noise.LengthCounter = 0 ∧
      a.Cycles = (if n % 81 < 40 then n % 81 else n % 81 - 40) ∧
      a.TargetCycles = (if n % 81 < 40 then 40 else 41) := by
  induction n with
  | zero => exact ⟨NewAPU, rfl, rfl, rfl, rfl, rfl, rfl, rfl⟩
  | succ n ih =>
    obtain ⟨b, hb, b1, b2, b3, b4, b5, b6⟩ := ih
    have hcy : b.Cycles + 1 < 2 ^ 64 := by
      rw [b5]
      have : (81 : Nat) < 2 ^ 64 := by decide
      split_ifs <;> omega
    obtain ⟨a1, sample, he, a2, a3, a4, a5, a6, a7⟩ := Execute_cycles mix b b1 b2 b3 b4 hcy
    refine ⟨a1, ?_, a2, a3, a4, a5, ?_, ?_⟩
    · rw [ExecuteN_succ, hb, Option.some_bind, he]
      rfl
    · rw [a6, b5, b6]
      split_ifs <;> omega
    · rw [a7, b5, b6]
      have e40 : 40 ^^^ 1 = 41 := by decide
      have e41 : 41 ^^^ 1 = 40 := by decide
      split_ifs <;> omega

/-- C20: starting from a newly constructed APU (`TargetCycles = 1789773 / 44100 = 40`),
for every `n >= 1` the `n`-th call of `Execute` returns (it does not panic) and returns
`haveSample = true` if and only if `n mod 81` is 40 or 0, so samples come at intervals of
alternately 40 and 41 calls. -/
theorem Execute_haveSample_pattern (mix : Nat → Nat → Int) (n : Nat) (hn : 1 ≤ n) :
    NewAPU.TargetCycles = 40 ∧
    ∃ a a1 sample haveSample,
      APU.ExecuteN mix (n - 1) NewAPU = some a ∧
      a.Execute mix = some (a1, sample, haveSample) ∧
      (haveSample = true ↔ (n % 81 = 40 ∨ n % 81 = 0)) := by
  refine ⟨rfl, ?_⟩
  obtain ⟨b, hb, b1, b2, b3, b4, b5, b6⟩ := ExecuteN_cycles mix (n - 1)
  have hcy : b.Cycles + 1 < 2 ^ 64 := by
    rw [b5]
    have : (81 : Nat) < 2 ^ 64 := by decide
    split_ifs <;> omega
  obtain ⟨a1, sample, he, -⟩ := Execute_cycles mix b b1 b2 b3 b4 hcy
  refine ⟨b, a1, sample, _, hb, he, ?_⟩
  rw [decide_eq_true_iff, b5, b6]
  split_ifs <;> omega

theorem Execute_haveSample_pattern_witness :
    (1 ≤ 40) ∧
    ∃ a a1 sample haveSample,
      APU.ExecuteN (fun _ _ => 0) (40 - 1) NewAPU = some a ∧
      a.Execute (fun _ _ => 0) = some (a1, sample, haveSample) ∧
      (haveSample = true ↔ (40 % 81 = 40 ∨ 40 % 81 = 0)) :=
  ⟨by decide, (Execute_haveSample_pattern (fun _ _ => 0) 40 (by decide)).2⟩

/-! ## The fourth step of the five-step sequence -/

theorem ExecuteN_reachable (mix : Nat → Nat → Int) (n : Nat) (a b : APU)
    (hr : Reachable mix a) (hrun : APU.ExecuteN mix n a = some b) : Reachable mix b := by
  induction n generalizing a with
  | zero =>
    simp only [APU.ExecuteN, Option.some.injEq] at hrun
    rw [← hrun]
    exact hr
  | succ n ih =>
    rw [APU.ExecuteN] at hrun
    cases he : a.Execute mix with
    | none => rw [he] at hrun; cases hrun
    | some r =>
      obtain ⟨a1, sample, haveSample⟩ := r
      rw [he] at hrun
      exact ih a1 (Reachable.execute hr he) hrun

theorem Noise_Store_Envelope_idle (noise n : Noise) (index value oldValue : Nat)
    (hst : noise.Store index value = some (n, oldValue))
    (h : noise.Envelope.Start = false ∧ noise.Envelope.Divider.Period = 0) :
    n.Envelope.Start = false ∧ n.Envelope.Divider.Period = 0 := by
  rcases index with _ | _ | _ | k
  · simp only [Noise.Store, Array3.get?, Array3.set, Noise.registers, Option.some.injEq,
      Prod.mk.injEq] at hst
    rw [← hst.1]
    exact h
  · simp only [Noise.Store, Array3.get?, Array3.set, Noise.registers] at hst
    split at hst
    · cases hst
    · simp only [Option.some.injEq, Prod.mk.injEq] at hst
      rw [← hst.1]
      exact h
  · simp only [Noise.Store, Array3.get?, Array3.set, Noise.registers] at hst
    split at hst
    · cases hst
    · simp only [Option.some.injEq, Prod.mk.injEq] at hst
      rw [← hst.1]
      exact h
  · simp [Noise.Store, Array3.get?] at hst

theorem Envelope_Clock_idle (envelope : Envelope)
    (h : envelope.Start = false ∧ envelope.Divider.Period = 0) :
    envelope.Clock.1.Start = false ∧ envelope.Clock.1.Divider.Period = 0 := by
  obtain ⟨h1, h2⟩ := h
  simp only [Envelope.Clock, h1, Divider.Clock, Divider.Reload, Bool.false_eq_true, if_false]
  split_ifs <;> exact ⟨rfl, h2⟩

/-- The envelope start flag is never set and the period of the envelope divider is never
written. -/
theorem envelope_idle_invariant :
    StepInvariant (fun a : APU =>
      a.Noise.Envelope.Start = false ∧ a.Noise.Envelope.Divider.Period = 0) where
  frameCounter := fun _ _ h => h
  envelope := fun a h => Envelope_Clock_idle a.Noise.Envelope h
  linearCounter := fun _ h => h
  lengthCounter := fun a h => by
    show a.Noise.ClockLengthCounter.Envelope.Start = false ∧
      a.Noise.ClockLengthCounter.Envelope.Divider.Period = 0
    rw [Noise_ClockLengthCounter_Envelope]
    exact h
  frameInterrupt := fun _ h => h
  noiseDivider := fun a h => by
    show a.Noise.ClockDivider.Envelope.Start = false ∧
      a.Noise.ClockDivider.Envelope.Divider.Period = 0
    rw [Noise_ClockDivider_Envelope]
    exact h
  cycles := fun _ _ _ h => h
  hipass := fun _ _ _ h => h
  pulse1 := fun _ _ h => h
  pulse2 := fun _ _ h => h
  triangle := fun _ _ h => h
  dmc := fun _ _ h => h
  noiseStore := fun a index value n oldValue h _ hst =>
    Noise_Store_Envelope_idle a.Noise n index value oldValue hst h
  control := fun _ _ h _ => h
  lengthCounterZero := fun _ h => h
  fetchStatus := fun _ h => h

/-- Clocking an envelope whose start flag is clear and whose divider period is 0 always
changes it: the divider counter moves. -/
theorem Envelope_Clock_ne (envelope : Envelope)
    (h : envelope.Start = false ∧ envelope.Divider.Period = 0) :
    envelope.Clock.1 ≠ envelope := by
  obtain ⟨h1, h2⟩ := h
  intro heq
  have hd : envelope.Clock.1.Divider.Counter = envelope.Divider.Counter := by rw [heq]
  have hw : envelope.Clock.1.Divider.Counter = wrapInt 16 (envelope.Divider.Counter - 1) := by
    simp only [Envelope.Clock, h1, Divider.Clock, Divider.Reload, h2, Bool.false_eq_true,
      if_false]
    split_ifs with c1 <;> first | rfl | exact c1.symm
  rw [hw] at hd
  unfold wrapInt at hd
  omega

theorem kth_Clock_step_ne_zero (frameCounter : FrameCounter) (h0 : frameCounter.Cycles = 0)
    (hs : frameCounter.Step = 0) (k : Nat) (hk1 : 1 ≤ k) (hk2 : k ≤ 37282)
    (hch : (FrameCounter.ClockN (k - 1) frameCounter).Clock.2.1 = true) :
    (FrameCounter.ClockN (k - 1) frameCounter).Clock.2.2 ≠ 0 := by
  rw [kth_Clock_from_reset frameCounter h0 hs k hk1 hk2] at hch ⊢
  by_cases h1 : k = 7458
  · rw [if_pos h1]; decide
  rw [if_neg h1] at hch ⊢
  by_cases h2 : k = 14914
  · rw [if_pos h2]; decide
  rw [if_neg h2] at hch ⊢
  by_cases h3 : k = 22372
  · rw [if_pos h3]; decide
  rw [if_neg h3] at hch ⊢
  by_cases h4 : k = 29830
  · rw [if_pos h4]; decide
  rw [if_neg h4] at hch ⊢
  by_cases h5 : k = 37282
  · rw [if_pos h5]; decide
  rw [if_neg h5] at hch
  cases hch

/-- With `NumSteps = 0`, a run of `Execute` calls started `m` clocks after a frame counter
reset clocks the frame counter once per call and never resets it, up to the last
threshold of the sequence. -/
theorem ExecuteN_frameCounter (mix : Nat → Nat → Int) (fcR : FrameCounter)
    (hR0 : fcR.Cycles = 0) (hRs : fcR.Step = 0) (hRn : fcR.NumSteps = 0)
    (m n : Nat) (hmn : m + n ≤ 37282) (a0 : APU)
    (hfc : a0.FrameCounter = FrameCounter.ClockN m fcR)
    (hs : a0.Registers.Status = 0) (hl : a0.Noise.LengthCounter = 0) :
    ∃ a, APU.ExecuteN mix n a0 = some a ∧
      a.FrameCounter = FrameCounter.ClockN (m + n) fcR ∧
      a.Registers.Status = 0 ∧ a.Noise.LengthCounter = 0 := by
  induction n with
  | zero => exact ⟨a0, rfl, hfc, hs, hl⟩
  | succ n ih =>
    obtain ⟨b, hb, b1, b2, b3⟩ := ih (by omega)
    have hbn : b.FrameCounter.NumSteps = 0 := by
      rw [b1, ClockN_from_reset fcR hR0 hRs (m + n) (by omega)]
      exact hRn
    obtain ⟨a1, sample, haveSample, he, q1, -, q3⟩ := Execute_quiet mix b b2 hbn b3
    obtain ⟨-, nz, x, y, -, -, ha⟩ := Execute_eq_some mix b a1 sample haveSample he
    refine ⟨a1, ?_, ?_, q1, q3⟩
    · rw [ExecuteN_succ, hb, Option.some_bind, he]
      rfl
    · have hk := kth_Clock_step_ne_zero fcR hR0 hRs (m + n + 1) (by omega) (by omega)
      rw [Nat.add_sub_cancel] at hk
      have hfc1 : a1.FrameCounter = b.ExecuteFrameCounter.FrameCounter := by rw [ha]
      rw [hfc1, ExecuteFrameCounter_FrameCounter, hbn, b1]
      have hno : ¬ ((FrameCounter.ClockN (m + n) fcR).Clock.2.1 = true ∧
          (FrameCounter.ClockN (m + n) fcR).Clock.2.2 = 0) := fun h => hk h.1 h.2
      rw [if_neg hno]
      rfl

/-- C17 (counterexample): after `Reset`, `Store(0x4017, 0x80)` (5-step mode) and 29828
calls of `Execute`, the next `ExecuteFrameCounter` advances the frame counter to step 4 of
its sequence and leaves the noise envelope as it was, although clocking the envelope
would change it. -/
theorem step4_of_5_envelope_not_clocked :
    ∃ a0 a,
      NewAPU.Reset.Store 0x4017 0x80 = some (a0, 0x80) ∧
      APU.ExecuteN (fun _ _ => 0) 29828 a0 = some a ∧
      a.FrameCounter.register FrameCounterFlag.Mode = 5 ∧
      a.FrameCounter.Clock.2 = (true, 4) ∧
      a.ExecuteFrameCounter.Noise.Envelope = a.Noise.Envelope ∧
      a.Noise.Envelope.Clock.1 ≠ a.Noise.Envelope := by
  have h0 : ∃ a0 fcR, NewAPU.Reset.Store 0x4017 0x80 = some (a0, 0x80) ∧
      fcR.Cycles = 0 ∧ fcR.Step = 0 ∧ fcR.NumSteps = 0 ∧ fcR.Register = 0x80 ∧
      a0.FrameCounter = FrameCounter.ClockN 1 fcR ∧
      a0.Registers.Status = 0 ∧ a0.Noise.LengthCounter = 0 :=
    ⟨_, { Register := 0x80, IRQInhibit := false, NumSteps := 0, Step := 0, Cycles := 0 },
      rfl, rfl, rfl, rfl, rfl, by decide, rfl, rfl⟩
  obtain ⟨a0, fcR, hst, hR0, hRs, hRn, hRr, hfc, hs, hl⟩ := h0
  obtain ⟨a, hrun, hfa, -, -⟩ :=
    ExecuteN_frameCounter (fun _ _ => 0) fcR hR0 hRs hRn 1 29828 (by decide) a0 hfc hs hl
  have hreach : Reachable (fun _ _ => 0) a :=
    ExecuteN_reachable _ _ _ _
      (Reachable.store 0x4017 0x80 Reachable.init (by decide) (by decide) hst) hrun
  have hidle := Reachable_invariant envelope_idle_invariant ⟨rfl, rfl⟩ _ a hreach
  have hclock : a.FrameCounter.Clock.2 = (true, 4) := by
    rw [hfa]
    exact kth_Clock_from_reset fcR hR0 hRs 29830 (by decide) (by decide)
  have hfields : a.FrameCounter.NumSteps = 0 ∧ a.FrameCounter.Register = 0x80 := by
    rw [hfa, ClockN_from_reset fcR hR0 hRs (1 + 29828) (by decide)]
    exact ⟨hRn, hRr⟩
  have hmode : a.FrameCounter.register FrameCounterFlag.Mode = 5 := by
    simp only [FrameCounter.register, hfields.2]
  refine ⟨a0, a, hst, hrun, hmode, hclock, ?_, Envelope_Clock_ne _ hidle⟩
  have h1 := (ExecuteFrameCounter_clocks_eq a).1
  rw [hclock, hfields.1] at h1
  simpa using h1

/-! ## Noise length counter -/

/-- What `Noise.ClockLengthCounter` does: it decrements a non-zero length counter exactly
when bit 5 of the $400C register is set. -/
theorem Noise_ClockLengthCounter_eq (noise : Noise) :
    noise.ClockLengthCounter =
      if noise.Registers.r0.testBit 5 = true ∧ noise.LengthCounter > 0 then
        { noise with LengthCounter := noise.LengthCounter - 1 }
      else noise := by
  have h : (noise.Registers.r0 >>> 5) &&& 0x01 ≠ 0 ↔ noise.Registers.r0.testBit 5 = true := by
    rw [Ne, shiftRight_and_one_eq_zero_iff]
    simp
  unfold Noise.ClockLengthCounter Noise.registers
  exact if_congr (and_congr h Iff.rfl) rfl rfl

/-- C21 (code evaluated at the failing inputs): with the halt flag set ($400C = 0x20) and
length counter 5, `ClockLengthCounter` leaves 4, and with the halt flag clear
($400C = 0x00) and length counter 5 it leaves 5. -/
theorem ClockLengthCounter_halt_inverted :
    (countingNoise 0x20 5).registers NoiseFlag.NoiseEnvelopeLoopLengthCounterHalt = 1 ∧
    (countingNoise 0x20 5).ClockLengthCounter.LengthCounter = 4 ∧
    (countingNoise 0x00 5).registers NoiseFlag.NoiseEnvelopeLoopLengthCounterHalt = 0 ∧
    (countingNoise 0x00 5).ClockLengthCounter.LengthCounter = 5 := by
  decide

/-! ## Range of the noise shift register -/

theorem Noise_updatedShift_range (noise : Noise)
    (h : 1 ≤ noise.Shift ∧ noise.Shift ≤ 0x7FFF) :
    1 ≤ noise.updatedShift ∧ noise.updatedShift ≤ 0x7FFF := by
  obtain ⟨h1, h2⟩ := h
  unfold Noise.updatedShift
  simp only
  generalize noise.Shift = s at h1 h2
  have htmp : ∀ tmp : Nat, (tmp = 5 ∨ tmp = 1) →
      1 ≤ ((s >>> 1) ||| ((((s &&& 0x0001) ^^^ ((s >>> tmp) &&& 0x0001)) <<< 14) % 2 ^ 16)) % 2 ^ 16 ∧
      ((s >>> 1) ||| ((((s &&& 0x0001) ^^^ ((s >>> tmp) &&& 0x0001)) <<< 14) % 2 ^ 16)) % 2 ^ 16
        ≤ 0x7FFF := by
    intro tmp ht
    have hf : (s &&& 0x0001) ^^^ ((s >>> tmp) &&& 0x0001) < 2 ^ 1 :=
      Nat.xor_lt_two_pow (Nat.and_lt_two_pow _ (by decide)) (Nat.and_lt_two_pow _ (by decide))
    have hh : s >>> 1 < 2 ^ 15 := by rw [Nat.shiftRight_one]; omega
    generalize hfe : (s &&& 0x0001) ^^^ ((s >>> tmp) &&& 0x0001) = f at hf
    have hf01 : f = 0 ∨ f = 1 := by omega
    rcases hf01 with rfl | rfl
    · -- feedback 0: the shift register was at least 2
      have hs2 : 2 ≤ s := by
        by_contra hlt
        have : s = 1 := by omega
        subst this
        rcases ht with rfl | rfl <;> revert hfe <;> decide
      have e : (0 <<< 14) % 2 ^ 16 = 0 := by decide
      rw [e, Nat.or_zero, Nat.shiftRight_one, Nat.mod_eq_of_lt (by omega)]
      omega
    · -- feedback 1: bit 14 is set
      have e : (1 <<< 14) % 2 ^ 16 = 2 ^ 14 := by decide
      rw [e]
      have hlt : s >>> 1 ||| 2 ^ 14 < 2 ^ 15 := Nat.or_lt_two_pow hh (by decide)
      have hbit : (s >>> 1 ||| 2 ^ 14).testBit 14 = true := by
        rw [Nat.testBit_or, Nat.testBit_two_pow_self, Bool.or_true]
      have hge := Nat.testBit_implies_ge hbit
      rw [Nat.mod_eq_of_lt (by omega)]
      omega
  by_cases hm : noise.registers NoiseFlag.LoopNoise = 0
  · rw [if_pos hm]; exact htmp 5 (Or.inl rfl)
  · rw [if_neg hm]; exact htmp 1 (Or.inr rfl)

theorem Noise_ClockDivider_Shift (noise : Noise) :
    noise.ClockDivider.Shift =
      if noise.Divider.Clock.2 = true then noise.updatedShift else noise.Shift := by
  unfold Noise.ClockDivider Noise.updatedShift
  by_cases hc : noise.Divider.Clock.2 = true
  · simp only [hc, if_true]
    rfl
  · simp only [hc, if_false]
    rfl

theorem Noise_ClockDivider_Divider (noise : Noise) :
    noise.ClockDivider.Divider = noise.Divider.Clock.1 := by
  unfold Noise.ClockDivider
  simp only
  split_ifs <;> rfl

theorem Noise_ClockDivider_Registers (noise : Noise) :
    noise.ClockDivider.Registers = noise.Registers := by
  unfold Noise.ClockDivider
  simp only
  split_ifs <;> rfl

theorem Noise_ClockLengthCounter_fields (noise : Noise) :
    noise.ClockLengthCounter.Shift = noise.Shift ∧
    noise.ClockLengthCounter.Divider = noise.Divider ∧
    noise.ClockLengthCounter.Registers = noise.Registers ∧
    noise.ClockLengthCounter.PeriodLUT = noise.PeriodLUT ∧
    noise.ClockLengthCounter.LengthCounterLUT = noise.LengthCounterLUT := by
  unfold Noise.ClockLengthCounter
  split_ifs <;> exact ⟨rfl, rfl, rfl, rfl, rfl⟩

theorem Noise_Store_Shift (noise n : Noise) (index value oldValue : Nat)
    (hst : noise.Store index value = some (n, oldValue)) :
    n.Shift = noise.Shift ∧ n.PeriodLUT = noise.PeriodLUT ∧
    n.LengthCounterLUT = noise.LengthCounterLUT ∧
    n.Registers = noise.Registers.set index value := by
  rcases index with _ | _ | _ | k
  · simp only [Noise.Store, Array3.get?, Array3.set, Noise.registers, Option.some.injEq,
      Prod.mk.injEq] at hst
    rw [← hst.1]
    exact ⟨rfl, rfl, rfl, rfl⟩
  · simp only [Noise.Store, Array3.get?, Array3.set, Noise.registers] at hst
    split at hst
    · cases hst
    · simp only [Option.some.injEq, Prod.mk.injEq] at hst
      rw [← hst.1]
      exact ⟨rfl, rfl, rfl, rfl⟩
  · simp only [Noise.Store, Array3.get?, Array3.set, Noise.registers] at hst
    split at hst
    · cases hst
    · simp only [Option.some.injEq, Prod.mk.injEq] at hst
      rw [← hst.1]
      exact ⟨rfl, rfl, rfl, rfl⟩
  · simp [Noise.Store, Array3.get?] at hst

theorem shift_range_invariant :
    StepInvariant (fun a : APU => 1 ≤ a.Noise.Shift ∧ a.Noise.Shift ≤ 0x7FFF) where
  frameCounter := fun _ _ h => h
  envelope := fun _ h => h
  linearCounter := fun _ h => h
  lengthCounter := fun a h => by
    show 1 ≤ a.Noise.ClockLengthCounter.Shift ∧ a.Noise.ClockLengthCounter.Shift ≤ 0x7FFF
    rw [(Noise_ClockLengthCounter_fields a.Noise).1]
    exact h
  frameInterrupt := fun _ h => h
  noiseDivider := fun a h => by
    show 1 ≤ a.Noise.ClockDivider.Shift ∧ a.Noise.ClockDivider.Shift ≤ 0x7FFF
    rw [Noise_ClockDivider_Shift]
    split_ifs
    · exact Noise_updatedShift_range a.Noise h
    · exact h
  cycles := fun _ _ _ h => h
  hipass := fun _ _ _ h => h
  pulse1 := fun _ _ h => h
  pulse2 := fun _ _ h => h
  triangle := fun _ _ h => h
  dmc := fun _ _ h => h
  noiseStore := fun a index value n oldValue h _ hst => by
    show 1 ≤ n.Shift ∧ n.Shift ≤ 0x7FFF
    rw [(Noise_Store_Shift a.Noise n index value oldValue hst).1]
    exact h
  control := fun _ _ h _ => h
  lengthCounterZero := fun _ h => h
  fetchStatus := fun _ h => h

/-- C23: in every APU state reachable from a newly constructed and reset APU by `Store`,
`Fetch` and `Execute` calls, the noise shift register is a non-zero 15-bit value,
`1 ≤ Shift ≤ 0x7FFF`; the update made by `Noise.ClockDivider` keeps this range in both
modes. -/
theorem Shift_nonzero_15bit (mix : Nat → Nat → Int) (apu : APU) (hr : Reachable mix apu) :
    1 ≤ apu.Noise.Shift ∧ apu.Noise.Shift ≤ 0x7FFF :=
  Reachable_invariant shift_range_invariant (by decide) mix apu hr

theorem Shift_nonzero_15bit_witness :
    Reachable (fun _ _ => 0) lengthLoadedAPU ∧
    1 ≤ lengthLoadedAPU.Noise.Shift ∧ lengthLoadedAPU.Noise.Shift ≤ 0x7FFF :=
  ⟨lengthLoadedAPU_reachable _,
    Shift_nonzero_15bit (fun _ _ => 0) lengthLoadedAPU (lengthLoadedAPU_reachable _)⟩

/-! ## Index ranges of `Store` -/

/-- A step invariant that holds for `NewAPU` and is kept by `Reset` holds in every state
of a created APU. -/
theorem Created_invariant {P : APU → Prop} (hP : StepInvariant P) (h0 : P NewAPU)
    (hreset : ∀ a : APU, P a → P a.Reset)
    (mix : Nat → Nat → Int) (apu : APU) (hc : Created mix apu) : P apu := by
  induction hc with
  | new => exact h0
  | reset _ ih => exact hreset _ ih
  | store address value _ _ hv hst ih => exact Store_preserves hP _ _ address value _ hv hst ih
  | fetch address _ _ ih => exact Fetch_preserves hP _ address ih
  | execute _ he ih => exact Execute_preserves hP mix _ _ _ _ he ih

theorem Noise_ClockDivider_LUT (noise : Noise) :
    noise.ClockDivider.PeriodLUT = noise.PeriodLUT ∧
    noise.ClockDivider.LengthCounterLUT = noise.LengthCounterLUT := by
  unfold Noise.ClockDivider
  simp only
  split_ifs <;> exact ⟨rfl, rfl⟩

theorem tables_invariant :
    StepInvariant (fun a : APU =>
      a.Noise.PeriodLUT = noisePeriodTable ∧ a.Noise.LengthCounterLUT = lengthCounterTable) where
  frameCounter := fun _ _ h => h
  envelope := fun _ h => h
  linearCounter := fun _ h => h
  lengthCounter := fun a h => by
    show a.Noise.ClockLengthCounter.PeriodLUT = noisePeriodTable ∧
      a.Noise.ClockLengthCounter.LengthCounterLUT = lengthCounterTable
    rw [(Noise_ClockLengthCounter_fields a.Noise).2.2.2.1,
      (Noise_ClockLengthCounter_fields a.Noise).2.2.2.2]
    exact h
  frameInterrupt := fun _ h => h
  noiseDivider := fun a h => by
    show a.Noise.ClockDivider.PeriodLUT = noisePeriodTable ∧
      a.Noise.ClockDivider.LengthCounterLUT = lengthCounterTable
    rw [(Noise_ClockDivider_LUT a.Noise).1, (Noise_ClockDivider_LUT a.Noise).2]
    exact h
  cycles := fun _ _ _ h => h
  hipass := fun _ _ _ h => h
  pulse1 := fun _ _ h => h
  pulse2 := fun _ _ h => h
  triangle := fun _ _ h => h
  dmc := fun _ _ h => h
  noiseStore := fun a index value n oldValue h _ hst => by
    show n.PeriodLUT = noisePeriodTable ∧ n.LengthCounterLUT = lengthCounterTable
    rw [(Noise_Store_Shift a.Noise n index value oldValue hst).2.1,
      (Noise_Store_Shift a.Noise n index value oldValue hst).2.2.1]
    exact h
  control := fun _ _ h _ => h
  lengthCounterZero := fun _ h => h
  fetchStatus := fun _ h => h

theorem Created_tables (mix : Nat → Nat → Int) (apu : APU) (hc : Created mix apu) :
    apu.Noise.PeriodLUT = noisePeriodTable ∧ apu.Noise.LengthCounterLUT = lengthCounterTable :=
  Created_invariant tables_invariant ⟨rfl, rfl⟩ (fun _ h => h) mix apu hc

theorem Array4_get?_some (a : Array4) (index : Nat) (h : index ≤ 3) :
    ∃ oldValue, a.get? index = some oldValue := by
  rcases index with _ | _ | _ | _ | k
  · exact ⟨_, rfl⟩
  · exact ⟨_, rfl⟩
  · exact ⟨_, rfl⟩
  · exact ⟨_, rfl⟩
  · omega

theorem Array3_get?_some (a : Array3) (index : Nat) (h : index ≤ 2) :
    ∃ oldValue, a.get? index = some oldValue := by
  rcases index with _ | _ | _ | k
  · exact ⟨_, rfl⟩
  · exact ⟨_, rfl⟩
  · exact ⟨_, rfl⟩
  · omega

theorem Pulse_Store_some (pulse : Pulse) (index value : Nat) (h : index ≤ 3) :
    ∃ p oldValue, pulse.Store index value = some (p, oldValue) := by
  obtain ⟨o, ho⟩ := Array4_get?_some pulse.Registers index h
  exact ⟨_, o, by unfold Pulse.Store; rw [ho]⟩

theorem DMC_Store_some (dmc : DMC) (index value : Nat) (h : index ≤ 3) :
    ∃ d oldValue, dmc.Store index value = some (d, oldValue) := by
  obtain ⟨o, ho⟩ := Array4_get?_some dmc.Registers index h
  exact ⟨_, o, by unfold DMC.Store; rw [ho]⟩

theorem Triangle_Store_some (triangle : Triangle) (index value : Nat) (h : index ≤ 2) :
    ∃ t oldValue, triangle.Store index value = some (t, oldValue) := by
  obtain ⟨o, ho⟩ := Array3_get?_some triangle.Registers index h
  exact ⟨_, o, by unfold Triangle.Store; rw [ho]⟩

theorem getElem?_some_of_lt {α : Type} (l : List α) (i : Nat) (h : i < l.length) :
    ∃ x, l[i]? = some x :=
  ⟨l[i], List.getElem?_eq_getElem h⟩

theorem Noise_period_index (noise : Noise) (value : Nat) :
    ({ noise with Registers := noise.Registers.set 1 value }).registers NoiseFlag.NoisePeriod
      < 16 :=
  Nat.and_lt_two_pow value (show 0x0f < 2 ^ 4 by decide)

theorem Noise_length_index (noise : Noise) (value : Nat) (hv : value < 256) :
    ({ noise with Registers := noise.Registers.set 2 value }).registers
      NoiseFlag.NoiseLengthCounterLoad < 32 := by
  show value >>> 3 < 32
  rw [Nat.shiftRight_eq_div_pow]
  omega

theorem Noise_Store_some (noise : Noise) (index value : Nat) (h : index ≤ 2)
    (hv : value < 256) (hp : noise.PeriodLUT = noisePeriodTable)
    (hl : noise.LengthCounterLUT = lengthCounterTable) :
    ∃ n oldValue, noise.Store index value = some (n, oldValue) := by
  rcases index with _ | _ | _ | k
  · exact ⟨_, _, rfl⟩
  · have hi := Noise_period_index noise value
    obtain ⟨x, hx⟩ := getElem?_some_of_lt noise.PeriodLUT _
      (show _ < noise.PeriodLUT.length by rw [hp]; exact hi)
    simp only [Noise.Store, Array3.get?]
    rw [hx]
    exact ⟨_, _, rfl⟩
  · have hi := Noise_length_index noise value hv
    obtain ⟨x, hx⟩ := getElem?_some_of_lt noise.LengthCounterLUT _
      (show _ < noise.LengthCounterLUT.length by rw [hl]; exact hi)
    simp only [Noise.Store, Array3.get?]
    rw [hx]
    exact ⟨_, _, rfl⟩
  · omega

theorem Store_pulse1 (apu : APU) (address value : Nat)
    (h : 0x4000 ≤ address ∧ address ≤ 0x4003) :
    ∃ p oldValue, apu.Pulse1.Store (address - 0x4000) value = some (p, oldValue) ∧
      apu.Store address value = some ({ apu with Pulse1 := p }, oldValue) := by
  obtain ⟨p, o, hp⟩ := Pulse_Store_some apu.Pulse1 (address - 0x4000) value (by omega)
  refine ⟨p, o, hp, ?_⟩
  unfold APU.Store
  rw [if_pos h, hp]

theorem Store_pulse2 (apu : APU) (address value : Nat)
    (h : 0x4004 ≤ address ∧ address ≤ 0x4007) :
    ∃ p oldValue, apu.Pulse2.Store (address - 0x4004) value = some (p, oldValue) ∧
      apu.Store address value = some ({ apu with Pulse2 := p }, oldValue) := by
  obtain ⟨p, o, hp⟩ := Pulse_Store_some apu.Pulse2 (address - 0x4004) value (by omega)
  refine ⟨p, o, hp, ?_⟩
  unfold APU.Store
  rw [if_neg (by omega), if_pos h, hp]

theorem Store_dmc (apu : APU) (address value : Nat)
    (h : 0x4010 ≤ address ∧ address ≤ 0x4013) :
    ∃ d oldValue, apu.DMC.Store (address - 0x4010) value = some (d, oldValue) ∧
      apu.Store address value = some ({ apu with DMC := d }, oldValue) := by
  obtain ⟨d, o, hd⟩ := DMC_Store_some apu.DMC (address - 0x4010) value (by omega)
  refine ⟨d, o, hd, ?_⟩
  unfold APU.Store
  rw [if_neg (by omega), if_neg (by omega), if_neg (by omega), if_neg (by omega), if_pos h, hd]

theorem Store_triangle (apu : APU) (address value : Nat)
    (h : address = 0x4008 ∨ address = 0x400a ∨ address = 0x400b) :
    ∃ t oldValue,
      apu.Triangle.Store (address - 0x4008 - (if address = 0x4008 then 0 else 1)) value
        = some (t, oldValue) ∧
      apu.Store address value = some ({ apu with Triangle := t }, oldValue) := by
  rcases h with e | e | e <;> subst e
  · obtain ⟨t, o, ht⟩ := Triangle_Store_some apu.Triangle 0 value (by omega)
    refine ⟨t, o, ht, ?_⟩
    unfold APU.Store
    rw [if_neg (by omega), if_neg (by omega), if_pos (by omega)]
    simp only []
    rw [ht]
  · obtain ⟨t, o, ht⟩ := Triangle_Store_some apu.Triangle 1 value (by omega)
    refine ⟨t, o, ht, ?_⟩
    unfold APU.Store
    rw [if_neg (by omega), if_neg (by omega), if_pos (by omega)]
    simp only []
    rw [ht]
  · obtain ⟨t, o, ht⟩ := Triangle_Store_some apu.Triangle 2 value (by omega)
    refine ⟨t, o, ht, ?_⟩
    unfold APU.Store
    rw [if_neg (by omega), if_neg (by omega), if_pos (by omega)]
    simp only []
    rw [ht]

theorem Store_noise (apu : APU) (address value : Nat)
    (h : address = 0x400c ∨ address = 0x400e ∨ address = 0x400f) (hv : value < 256)
    (hp : apu.Noise.PeriodLUT = noisePeriodTable)
    (hl : apu.Noise.LengthCounterLUT = lengthCounterTable) :
    ∃ n oldValue,
      apu.Noise.Store (address - 0x400c - (if address = 0x400c then 0 else 1)) value
        = some (n, oldValue) ∧
      apu.Store address value = some ({ apu with Noise := n }, oldValue) := by
  rcases h with e | e | e <;> subst e
  · obtain ⟨n, o, hn⟩ := Noise_Store_some apu.Noise 0 value (by omega) hv hp hl
    refine ⟨n, o, hn, ?_⟩
    unfold APU.Store
    rw [if_neg (by omega), if_neg (by omega), if_neg (by omega), if_pos (by omega)]
    simp only []
    rw [hn]
  · obtain ⟨n, o, hn⟩ := Noise_Store_some apu.Noise 1 value (by omega) hv hp hl
    refine ⟨n, o, hn, ?_⟩
    unfold APU.Store
    rw [if_neg (by omega), if_neg (by omega), if_neg (by omega), if_pos (by omega)]
    simp only []
    rw [hn]
  · obtain ⟨n, o, hn⟩ := Noise_Store_some apu.Noise 2 value (by omega) hv hp hl
    refine ⟨n, o, hn, ?_⟩
    unfold APU.Store
    rw [if_neg (by omega), if_neg (by omega), if_neg (by omega), if_pos (by omega)]
    simp only []
    rw [hn]

theorem Store_unmapped (apu : APU) (address value : Nat)
    (h : address = 0x4009 ∨ address = 0x400d ∨
      ¬ ((0x4000 ≤ address ∧ address ≤ 0x4013) ∨ address = 0x4015 ∨ address = 0x4017)) :
    apu.Store address value = some (apu, 0) := by
  unfold APU.Store
  rcases h with e | e | e
  · subst e
    rw [if_neg (by omega), if_neg (by omega), if_pos (by omega)]
  · subst e
    rw [if_neg (by omega), if_neg (by omega), if_neg (by omega), if_pos (by omega)]
  · rw [if_neg (by omega), if_neg (by omega), if_neg (by omega), if_neg (by omega),
      if_neg (by omega), if_neg (by omega), if_neg (by omega)]

theorem Store_4015_4017_some (apu : APU) (address value : Nat)
    (h : address = 0x4015 ∨ address = 0x4017) :
    ∃ apu1 oldValue, apu.Store address value = some (apu1, oldValue) := by
  unfold APU.Store
  rcases h with e | e <;> subst e
  · rw [if_neg (by omega), if_neg (by omega), if_neg (by omega), if_neg (by omega),
      if_neg (by omega), if_pos rfl]
    dsimp only
    split_ifs <;> exact ⟨_, _, rfl⟩
  · rw [if_neg (by omega), if_neg (by omega), if_neg (by omega), if_neg (by omega),
      if_neg (by omega), if_neg (by omega), if_pos rfl]
    dsimp only
    split_ifs <;> exact ⟨_, _, rfl⟩

/-- C24: for every state of an APU created by `NewAPU`, every 16-bit address and every
8-bit value, `Store` returns (no index is out of range): the index passed to `Pulse.Store`
and `DMC.Store` is at most 3, the index passed to `Triangle.Store` and `Noise.Store` after
the remapping is at most 2, the index into the 16-entry noise period table is below 16 and
the index into the 32-entry length-counter table is below 32; a store to $4009, to $400D or
to an address outside $4000-$4013, $4015, $4017 leaves the state unchanged and returns 0. -/
theorem Store_indices_in_range (mix : Nat → Nat → Int) (apu : APU) (hc : Created mix apu)
    (address value : Nat) (ha : address < 65536) (hv : value < 256) :
    (∃ apu1 oldValue, apu.Store address value = some (apu1, oldValue)) ∧
    (0x4000 ≤ address ∧ address ≤ 0x4003 →
      address - 0x4000 ≤ 3 ∧
      ∃ p oldValue, apu.Pulse1.Store (address - 0x4000) value = some (p, oldValue) ∧
        apu.Store address value = some ({ apu with Pulse1 := p }, oldValue)) ∧
    (0x4004 ≤ address ∧ address ≤ 0x4007 →
      address - 0x4004 ≤ 3 ∧
      ∃ p oldValue, apu.Pulse2.Store (address - 0x4004) value = some (p, oldValue) ∧
        apu.Store address value = some ({ apu with Pulse2 := p }, oldValue)) ∧
    (0x4010 ≤ address ∧ address ≤ 0x4013 →
      address - 0x4010 ≤ 3 ∧
      ∃ d oldValue, apu.DMC.Store (address - 0x4010) value = some (d, oldValue) ∧
        apu.Store address value = some ({ apu with DMC := d }, oldValue)) ∧
    (address = 0x4008 ∨ address = 0x400a ∨ address = 0x400b →
      address - 0x4008 - (if address = 0x4008 then 0 else 1) ≤ 2 ∧
      ∃ t oldValue,
        apu.Triangle.Store (address - 0x4008 - (if address = 0x4008 then 0 else 1)) value
          = some (t, oldValue) ∧
        apu.Store address value = some ({ apu with Triangle := t }, oldValue)) ∧
    (address = 0x400c ∨ address = 0x400e ∨ address = 0x400f →
      address - 0x400c - (if address = 0x400c then 0 else 1) ≤ 2 ∧
      ∃ n oldValue,
        apu.Noise.Store (address - 0x400c - (if address = 0x400c then 0 else 1)) value
          = some (n, oldValue) ∧
        apu.Store address value = some ({ apu with Noise := n }, oldValue)) ∧
    (apu.Noise.PeriodLUT.length = 16 ∧
      ({ apu.Noise with Registers := apu.Noise.Registers.set 1 value }).registers
        NoiseFlag.NoisePeriod < 16) ∧
    (apu.Noise.LengthCounterLUT.length = 32 ∧
      ({ apu.Noise with Registers := apu.Noise.Registers.set 2 value }).registers
        NoiseFlag.NoiseLengthCounterLoad < 32) ∧
    (address = 0x4009 ∨ address = 0x400d ∨
        ¬ ((0x4000 ≤ address ∧ address ≤ 0x4013) ∨ address = 0x4015 ∨ address = 0x4017) →
      apu.Store address value = some (apu, 0)) := by
  obtain ⟨hp, hl⟩ := Created_tables mix apu hc
  have hsome : ∃ apu1 oldValue, apu.Store address value = some (apu1, oldValue) := by
    by_cases c1 : 0x4000 ≤ address ∧ address ≤ 0x4003
    · obtain ⟨p, o, _, h⟩ := Store_pulse1 apu address value c1
      exact ⟨_, _, h⟩
    by_cases c2 : 0x4004 ≤ address ∧ address ≤ 0x4007
    · obtain ⟨p, o, _, h⟩ := Store_pulse2 apu address value c2
      exact ⟨_, _, h⟩
    by_cases c3 : address = 0x4008 ∨ address = 0x400a ∨ address = 0x400b
    · obtain ⟨t, o, _, h⟩ := Store_triangle apu address value c3
      exact ⟨_, _, h⟩
    by_cases c4 : address = 0x400c ∨ address = 0x400e ∨ address = 0x400f
    · obtain ⟨n, o, _, h⟩ := Store_noise apu address value c4 hv hp hl
      exact ⟨_, _, h⟩
    by_cases c5 : 0x4010 ≤ address ∧ address ≤ 0x4013
    · obtain ⟨d, o, _, h⟩ := Store_dmc apu address value c5
      exact ⟨_, _, h⟩
    by_cases c6 : address = 0x4015 ∨ address = 0x4017
    · exact Store_4015_4017_some apu address value c6
    exact ⟨_, _, Store_unmapped apu address value (by omega)⟩
  refine ⟨hsome, fun h => ⟨by omega, Store_pulse1 apu address value h⟩,
    fun h => ⟨by omega, Store_pulse2 apu address value h⟩,
    fun h => ⟨by omega, Store_dmc apu address value h⟩,
    fun h => ⟨?_, Store_triangle apu address value h⟩,
    fun h => ⟨?_, Store_noise apu address value h hv hp hl⟩,
    ⟨by rw [hp]; rfl, Noise_period_index apu.Noise value⟩,
    ⟨by rw [hl]; rfl, Noise_length_index apu.Noise value hv⟩,
    Store_unmapped apu address value⟩
  · rcases h with e | e | e <;> subst e <;> decide
  · rcases h with e | e | e <;> subst e <;> decide

theorem Store_indices_in_range_witness :
    Created (fun _ _ => 0) NewAPU ∧
    (∃ apu1 oldValue, NewAPU.Store 0x400E 0x05 = some (apu1, oldValue)) ∧
    (NewAPU.Noise.PeriodLUT.length = 16 ∧
      ({ NewAPU.Noise with Registers := NewAPU.Noise.Registers.set 1 0x05 }).registers
        NoiseFlag.NoisePeriod < 16) :=
  ⟨Created.new,
    (Store_indices_in_range (fun _ _ => 0) NewAPU Created.new 0x400E 0x05
      (by decide) (by decide)).1,
    (Store_indices_in_range (fun _ _ => 0) NewAPU Created.new 0x400E 0x05
      (by decide) (by decide)).2.2.2.2.2.2.1⟩

/-! ## Timing of the noise shift register -/

theorem succ_emod_cases (j : Nat) (P : Int) (hP : 1 ≤ P) :
    ((j : Int) % P = P - 1 ∧ ((j + 1 : Nat) : Int) % P = 0) ∨
    ((j : Int) % P < P - 1 ∧ ((j + 1 : Nat) : Int) % P = (j : Int) % P + 1) := by
  have h0 := Int.emod_nonneg (j : Int) (show P ≠ 0 by omega)
  have h1 := Int.emod_lt_of_pos (j : Int) (show 0 < P by omega)
  have hd := Int.emod_add_ediv (j : Int) P
  push_cast
  by_cases h : (j : Int) % P = P - 1
  · left
    refine ⟨h, ?_⟩
    have e : (j : Int) + 1 = P * ((j : Int) / P + 1) := by
      rw [mul_add, mul_one]
      omega
    rw [e]
    exact Int.mul_emod_right _ _
  · right
    refine ⟨by omega, ?_⟩
    have e : (j : Int) + 1 = ((j : Int) % P + 1) + P * ((j : Int) / P) := by omega
    rw [e, Int.add_mul_emod_self_left]
    exact Int.emod_eq_of_lt (by omega) (by omega)

theorem wrapInt_16_of_range (x : Int) (h0 : -32768 ≤ x) (h1 : x ≤ 32767) : wrapInt 16 x = x := by
  unfold wrapInt
  norm_num
  omega

theorem Noise_updatedShift_ne (noise : Noise)
    (h : 1 ≤ noise.Shift ∧ noise.Shift ≤ 0x7FFF) : noise.updatedShift ≠ noise.Shift := by
  obtain ⟨h1, h2⟩ := h
  unfold Noise.updatedShift
  simp only
  generalize noise.Shift = s at h1 h2
  have htmp : ∀ tmp : Nat, (tmp = 5 ∨ tmp = 1) →
      ((s >>> 1) ||| ((((s &&& 0x0001) ^^^ ((s >>> tmp) &&& 0x0001)) <<< 14) % 2 ^ 16)) % 2 ^ 16
        ≠ s := by
    intro tmp ht heq
    have hf : (s &&& 0x0001) ^^^ ((s >>> tmp) &&& 0x0001) < 2 ^ 1 :=
      Nat.xor_lt_two_pow (Nat.and_lt_two_pow _ (by decide)) (Nat.and_lt_two_pow _ (by decide))
    have hh : s >>> 1 < 2 ^ 14 := by rw [Nat.shiftRight_one]; omega
    generalize hfe : (s &&& 0x0001) ^^^ ((s >>> tmp) &&& 0x0001) = f at hf heq
    have hf01 : f = 0 ∨ f = 1 := by omega
    rcases hf01 with rfl | rfl
    · have e : (0 <<< 14) % 2 ^ 16 = 0 := by decide
      rw [e, Nat.or_zero, Nat.shiftRight_one, Nat.mod_eq_of_lt (by omega)] at heq
      omega
    · have e : (1 <<< 14) % 2 ^ 16 = 2 ^ 14 * 1 := by decide
      rw [e, Nat.lor_comm, ← Nat.mul_add_lt_is_or hh, Nat.shiftRight_one,
        Nat.mod_eq_of_lt (by omega)] at heq
      have hs : s = 32767 := by omega
      subst hs
      rcases ht with rfl | rfl <;> revert hfe <;> decide
  by_cases hm : noise.registers NoiseFlag.LoopNoise = 0
  · rw [if_pos hm]; exact htmp 5 (Or.inl rfl)
  · rw [if_neg hm]; exact htmp 1 (Or.inr rfl)

theorem Noise_updatedShift_congr (n m : Noise) (h1 : n.Shift = m.Shift)
    (h2 : n.Registers = m.Registers) : n.updatedShift = m.updatedShift := by
  unfold Noise.updatedShift Noise.registers
  simp only [h1, h2]

theorem switchStep_Noise_fields (a : APU) (step : Nat) :
    (a.switchStep step).Noise.Divider = a.Noise.Divider ∧
    (a.switchStep step).Noise.Shift = a.Noise.Shift ∧
    (a.switchStep step).Noise.Registers = a.Noise.Registers := by
  have hl := Noise_ClockLengthCounter_fields
  rcases step with _ | _ | _ | _ | _ | _ | k
  · simp [APU.switchStep]
  · simp [APU.switchStep, APU.clockNoiseEnvelope, APU.clockLinearCounter, Noise.ClockEnvelope]
  · simp [APU.switchStep, hl, APU.clockNoiseEnvelope, APU.clockLinearCounter,
      APU.clockNoiseLengthCounter, Noise.ClockEnvelope]
  · simp [APU.switchStep, APU.clockNoiseEnvelope, APU.clockLinearCounter, Noise.ClockEnvelope]
  · by_cases hn : a.FrameCounter.NumSteps = 4
    · by_cases hi : a.FrameCounter.IRQInhibit = true <;>
        simp [APU.switchStep, hl, hn, hi, APU.clockNoiseEnvelope, APU.clockLinearCounter,
          APU.clockNoiseLengthCounter, Noise.ClockEnvelope]
    · simp [APU.switchStep, hn]
  · by_cases hn : a.FrameCounter.NumSteps = 5
    · simp [APU.switchStep, hl, hn, APU.clockNoiseEnvelope, APU.clockLinearCounter,
        APU.clockNoiseLengthCounter, Noise.ClockEnvelope]
    · simp [APU.switchStep, hn]
  · simp [APU.switchStep]

theorem ExecuteFrameCounter_Noise_fields (a : APU) :
    a.ExecuteFrameCounter.Noise.Divider = a.Noise.Divider ∧
    a.ExecuteFrameCounter.Noise.Shift = a.Noise.Shift ∧
    a.ExecuteFrameCounter.Noise.Registers = a.Noise.Registers := by
  unfold APU.ExecuteFrameCounter
  generalize a.FrameCounter.Clock = c
  obtain ⟨fc, changed, step⟩ := c
  obtain ⟨h2, h3, h4⟩ := switchStep_Noise_fields { a with FrameCounter := fc } step
  simp only
  split_ifs
  · exact ⟨h2, h3, h4⟩
  · exact ⟨h2, h3, h4⟩
  · exact ⟨rfl, rfl, rfl⟩

theorem Sample_returns (mix : Nat → Nat → Int) (a : APU)
    (h : a.Noise.Envelope.Counter ≤ 15) : ∃ a1 sample, a.Sample mix = some (a1, sample) := by
  obtain ⟨s0, s15⟩ := Noise_Sample_range a.Noise h
  have ep : wrapInt 16 (a.Pulse1.Sample + a.Pulse2.Sample) = 0 :=
    show wrapInt 16 (0 + 0) = 0 by decide
  have et : wrapInt 16 (3 * a.Triangle.Sample + 2 * a.Noise.Sample + a.DMC.Sample)
      = 2 * a.Noise.Sample := by
    have e : 3 * a.Triangle.Sample + 2 * a.Noise.Sample + a.DMC.Sample = 2 * a.Noise.Sample := by
      simp [Triangle.Sample, DMC.Sample]
    rw [e]
    exact wrapInt_16_of_range _ (by omega) (by omega)
  unfold APU.Sample
  simp only [ep, et]
  rw [if_pos (by omega)]
  exact ⟨_, _, rfl⟩

/-- A call of `Execute` on a state whose noise envelope counter is at most 15 returns. -/
theorem Execute_returns (mix : Nat → Nat → Int) (a : APU)
    (h : a.Noise.Envelope.Counter ≤ 15) :
    ∃ a1 sample haveSample, a.Execute mix = some (a1, sample, haveSample) := by
  have hb := ExecuteFrameCounter_preserves envelope_counter_invariant a h
  unfold APU.Execute
  simp only
  generalize a.ExecuteFrameCounter = b at hb
  have key : ∀ c : APU, c.Noise.Envelope.Counter ≤ 15 →
      ∃ a1 sample haveSample,
        (if (c.Cycles + 1) % 2 ^ 64 = c.TargetCycles then
          match APU.Sample mix { c with Cycles := (c.Cycles + 1) % 2 ^ 64 } with
          | none => none
          | some (apu, sample) =>
            some ({ apu with Cycles := 0, TargetCycles := apu.TargetCycles ^^^ 0x1 }, sample, true)
        else some ({ c with Cycles := (c.Cycles + 1) % 2 ^ 64 }, 0, false)) =
        some (a1, sample, haveSample) := by
    intro c hc
    by_cases hcy : (c.Cycles + 1) % 2 ^ 64 = c.TargetCycles
    · rw [if_pos hcy]
      obtain ⟨d, smp, hs⟩ := Sample_returns mix { c with Cycles := (c.Cycles + 1) % 2 ^ 64 } hc
      rw [hs]
      exact ⟨_, _, _, rfl⟩
    · rw [if_neg hcy]
      exact ⟨_, _, _, rfl⟩
  by_cases hen : b.control EnableNoise = true
  · rw [if_pos hen]
    exact key { b with Noise := b.Noise.ClockDivider }
      (envelope_counter_invariant.noiseDivider b hb)
  · rw [if_neg hen]
    exact key b hb

theorem control_EnableNoise_iff (a : APU) :
    a.control EnableNoise = true ↔ a.Registers.Control.testBit 3 = true := by
  unfold APU.control
  rw [decide_eq_true_iff]
  exact Nintengo.and_two_pow_ne_zero_iff a.Registers.Control 3

/-- The noise channel and control register left by a call of `Execute` that returns, when
the noise channel is enabled: the channel after `ExecuteFrameCounter`, clocked once. -/
theorem Execute_Noise_enabled (mix : Nat → Nat → Int) (a a1 : APU) (sample : Int)
    (haveSample : Bool) (he : a.Execute mix = some (a1, sample, haveSample))
    (hen : a.Registers.Control.testBit 3 = true) :
    a1.Noise = a.ExecuteFrameCounter.Noise.ClockDivider ∧
    a1.Registers.Control = a.Registers.Control := by
  obtain ⟨-, n, x, y, hor, -, ha⟩ := Execute_eq_some mix a a1 sample haveSample he
  have hctl : a1.Registers.Control = a.Registers.Control := by
    rw [ha]
    exact (ExecuteFrameCounter_fields a).2.2
  refine ⟨?_, hctl⟩
  have hen1 : a.ExecuteFrameCounter.control EnableNoise = true := by
    rw [control_EnableNoise_iff, (ExecuteFrameCounter_fields a).2.2]
    exact hen
  unfold APU.Execute at he
  simp only at he
  rw [if_pos hen1] at he
  split_ifs at he
  · split at he
    · cases he
    · rename_i d smp hs
      obtain ⟨x1, y1, hd⟩ := Sample_eq_some mix _ _ _ hs
      simp only [Option.some.injEq, Prod.mk.injEq] at he
      rw [← he.1, hd]
  · simp only [Option.some.injEq, Prod.mk.injEq] at he
    rw [← he.1]

theorem Divider_Clock_of_counter (P c : Int) (hc1 : 1 ≤ c) (hc2 : c ≤ 32767) :
    ({ Counter := c, Period := P } : Divider).Clock =
      if c = 1 then ({ Counter := P, Period := P }, true)
      else ({ Counter := c - 1, Period := P }, false) := by
  unfold Divider.Clock Divider.Reload
  simp only
  rw [wrapInt_16_of_range (c - 1) (by omega) (by omega)]
  by_cases h : c = 1
  · rw [if_pos h, if_pos (by omega)]
  · rw [if_neg h, if_neg (by omega)]

/-- One call of `Execute` with the noise channel enabled and the noise timer at counter
`c` of period `P`: the timer counts down, and at `c = 1` it reloads and the shift register
is updated. -/
theorem Execute_noise_step (mix : Nat → Nat → Int) (a b : APU) (sample : Int)
    (haveSample : Bool) (he : a.Execute mix = some (b, sample, haveSample))
    (hen : a.Registers.Control.testBit 3 = true) (P c : Int)
    (hd : a.Noise.Divider = { Counter := c, Period := P }) (hc1 : 1 ≤ c) (hc2 : c ≤ 32767) :
    b.Noise.Divider =
      (if c = 1 then { Counter := P, Period := P } else { Counter := c - 1, Period := P }) ∧
    b.Noise.Shift = (if c = 1 then a.Noise.updatedShift else a.Noise.Shift) ∧
    b.Registers.Control = a.Registers.Control := by
  obtain ⟨hn, hctl⟩ := Execute_Noise_enabled mix a b sample haveSample he hen
  obtain ⟨f1, f2, f3⟩ := ExecuteFrameCounter_Noise_fields a
  have hclock := Divider_Clock_of_counter P c hc1 hc2
  rw [← hd, ← f1] at hclock
  refine ⟨?_, ?_, hctl⟩
  · rw [hn, Noise_ClockDivider_Divider, hclock]
    split_ifs <;> rfl
  · rw [hn, Noise_ClockDivider_Shift, hclock, Noise_updatedShift_congr _ _ f2 f3, f2]
    by_cases h : c = 1
    · simp only [h, if_true]
    · simp only [h, if_false, Bool.false_eq_true]

theorem ExecuteN_preserves {Q : APU → Prop} (hQ : StepInvariant Q) (mix : Nat → Nat → Int)
    (n : Nat) (a b : APU) (h : Q a) (hrun : APU.ExecuteN mix n a = some b) : Q b := by
  induction n generalizing a with
  | zero =>
    simp only [APU.ExecuteN, Option.some.injEq] at hrun
    rw [← hrun]
    exact h
  | succ n ih =>
    rw [APU.ExecuteN] at hrun
    cases he : a.Execute mix with
    | none => rw [he] at hrun; cases hrun
    | some r =>
      obtain ⟨a1, sample, haveSample⟩ := r
      rw [he] at hrun
      exact ih a1 (Execute_preserves hQ mix _ _ _ _ he h) hrun

/-- The noise timer `j` calls of `Execute` after it was loaded with period `P`, with the
noise channel enabled: every call returns and the counter stands at `P - j mod P`. -/
theorem ExecuteN_noise_divider (mix : Nat → Nat → Int) (apu0 : APU) (P : Int)
    (hP1 : 1 ≤ P) (hP2 : P ≤ 32767) (h15 : apu0.Noise.Envelope.Counter ≤ 15)
    (hen : apu0.Registers.Control.testBit 3 = true)
    (hd : apu0.Noise.Divider = { Counter := P, Period := P }) (j : Nat) :
    ∃ a, APU.ExecuteN mix j apu0 = some a ∧ a.Noise.Envelope.Counter ≤ 15 ∧
      a.Registers.Control.testBit 3 = true ∧
      a.Noise.Divider = { Counter := P - (j : Int) % P, Period := P } := by
  induction j with
  | zero =>
    refine ⟨apu0, rfl, h15, hen, ?_⟩
    rw [hd]
    simp
  | succ j ih =>
    obtain ⟨a, ha, a15, aen, ad⟩ := ih
    have h0 := Int.emod_nonneg (j : Int) (show P ≠ 0 by omega)
    have h1 := Int.emod_lt_of_pos (j : Int) (show 0 < P by omega)
    obtain ⟨b, sample, haveSample, he⟩ := Execute_returns mix a a15
    obtain ⟨bd, -, bctl⟩ := Execute_noise_step mix a b sample haveSample he aen P
      (P - (j : Int) % P) ad (by omega) (by omega)
    refine ⟨b, ?_, Execute_preserves envelope_counter_invariant mix _ _ _ _ he a15, ?_, ?_⟩
    · rw [ExecuteN_succ, ha, Option.some_bind, he]
      rfl
    · rw [bctl]
      exact aen
    · rw [bd]
      rcases succ_emod_cases j P hP1 with ⟨e1, e2⟩ | ⟨e1, e2⟩
      · rw [if_pos (by omega), e2]
        simp
      · rw [if_neg (by omega), e2]
        congr 1
        omega

theorem Noise_Store_1 (noise n : Noise) (value oldValue : Nat)
    (h : noise.Store 1 value = some (n, oldValue)) :
    ∃ P, noise.PeriodLUT[value &&& 0x0f]? = some P ∧
      n = { noise with
            Registers := noise.Registers.set 1 value,
            Divider := { Counter := P, Period := P } } := by
  simp only [Noise.Store, Array3.get?, Array3.set, Noise.registers] at h
  split at h
  · cases h
  · rename_i P hP
    simp only [Option.some.injEq, Prod.mk.injEq] at h
    exact ⟨P, hP, h.1.symm⟩

theorem noiseEnabledAPU_created (mix : Nat → Nat → Int) : Created mix noiseEnabledAPU :=
  Created.store 0x4015 0x08 (Created.reset Created.new) (by decide) (by decide)
    (show NewAPU.Reset.Store 0x4015 0x08 = some (noiseEnabledAPU, 0) from rfl)

/-- C22: for every state of an APU created by `NewAPU` in which the noise channel is
enabled (bit 3 of the control register set) and every 8-bit value `v`, `Store(0x400E, v)`
returns, and with `P = PeriodLUT[v & 0x0F]` every later call of `Execute` returns and the
`k`-th call applies the shift-register update of `Noise.ClockDivider` when `k` is a
multiple of `P` and leaves the shift register as it was otherwise; when the shift register
held a non-zero 15-bit value before the store, its value changes on exactly those calls. -/
theorem Shift_updated_every_period (mix : Nat → Nat → Int) (apu : APU)
    (hc : Created mix apu) (hen : apu.Registers.Control.testBit 3 = true)
    (v : Nat) (hv : v < 256) :
    ∃ apu0 oldValue P,
      apu.Store 0x400E v = some (apu0, oldValue) ∧
      apu.Noise.PeriodLUT[v &&& 0x0F]? = some P ∧
      ∀ k : Nat, 1 ≤ k →
        ∃ a b sample haveSample,
          APU.ExecuteN mix (k - 1) apu0 = some a ∧
          a.Execute mix = some (b, sample, haveSample) ∧
          b.Noise.Shift = (if (k : Int) % P = 0 then a.Noise.updatedShift else a.Noise.Shift) ∧
          (1 ≤ apu.Noise.Shift ∧ apu.Noise.Shift ≤ 0x7FFF →
            (b.Noise.Shift ≠ a.Noise.Shift ↔ (k : Int) % P = 0)) := by
  obtain ⟨hp, hl⟩ := Created_tables mix apu hc
  have h15 : apu.Noise.Envelope.Counter ≤ 15 :=
    Created_invariant envelope_counter_invariant (by decide) (fun _ h => h) mix apu hc
  obtain ⟨n, o, hn, hst⟩ := Store_noise apu 0x400e v (Or.inr (Or.inl rfl)) hv hp hl
  have hn1 : apu.Noise.Store 1 v = some (n, o) := hn
  obtain ⟨P, hP, hnP⟩ := Noise_Store_1 apu.Noise n v o hn1
  have hmem : P ∈ noisePeriodTable := by
    rw [hp] at hP
    exact List.getElem?_mem hP
  have hrange : 1 ≤ P ∧ P ≤ 32767 :=
    (by decide : ∀ x ∈ noisePeriodTable, 1 ≤ x ∧ x ≤ 32767) P hmem
  refine ⟨{ apu with Noise := n }, o, P, hst, hP, ?_⟩
  intro k hk
  obtain ⟨a, ha, a15, aen, ad⟩ := ExecuteN_noise_divider mix { apu with Noise := n } P
    hrange.1 hrange.2 (by rw [hnP]; exact h15) hen (by rw [hnP]) (k - 1)
  obtain ⟨b, sample, haveSample, he⟩ := Execute_returns mix a a15
  have h0 := Int.emod_nonneg ((k - 1 : Nat) : Int) (show P ≠ 0 by omega)
  have h1 := Int.emod_lt_of_pos ((k - 1 : Nat) : Int) (show 0 < P by omega)
  obtain ⟨-, bs, -⟩ := Execute_noise_step mix a b sample haveSample he aen P
    (P - ((k - 1 : Nat) : Int) % P) ad (by omega) (by omega)
  have hiff : P - ((k - 1 : Nat) : Int) % P = 1 ↔ (k : Int) % P = 0 := by
    have hk1 : k - 1 + 1 = k := by omega
    rcases succ_emod_cases (k - 1) P hrange.1 with ⟨e1, e2⟩ | ⟨e1, e2⟩
    · rw [hk1] at e2
      exact ⟨fun _ => e2, fun _ => by omega⟩
    · rw [hk1] at e2
      exact ⟨fun h => by omega, fun h => by omega⟩
  refine ⟨a, b, sample, haveSample, ha, he, ?_, ?_⟩
  · rw [bs]
    exact if_congr hiff rfl rfl
  · intro hr
    have ar : 1 ≤ a.Noise.Shift ∧ a.Noise.Shift ≤ 0x7FFF :=
      ExecuteN_preserves shift_range_invariant mix (k - 1) _ a
        (show 1 ≤ n.Shift ∧ n.Shift ≤ 0x7FFF by rw [hnP]; exact hr) ha
    rw [bs]
    by_cases h : (k : Int) % P = 0
    · rw [if_pos (hiff.2 h)]
      exact ⟨fun _ => h, fun _ => Noise_updatedShift_ne a.Noise ar⟩
    · rw [if_neg (mt hiff.1 h)]
      exact ⟨fun hne => absurd rfl hne, fun hz => absurd hz h⟩

theorem Shift_updated_every_period_witness :
    Created (fun _ _ => 0) noiseEnabledAPU ∧
    noiseEnabledAPU.Registers.Control.testBit 3 = true ∧
    ∃ apu0 oldValue P,
      noiseEnabledAPU.Store 0x400E 0x00 = some (apu0, oldValue) ∧
      noiseEnabledAPU.Noise.PeriodLUT[0x00 &&& 0x0F]? = some P ∧
      ∀ k : Nat, 1 ≤ k →
        ∃ a b sample haveSample,
          APU.ExecuteN (fun _ _ => 0) (k - 1) apu0 = some a ∧
          a.Execute (fun _ _ => 0) = some (b, sample, haveSample) ∧
          b.Noise.Shift = (if (k : Int) % P = 0 then a.Noise.updatedShift else a.Noise.Shift) ∧
          (1 ≤ noiseEnabledAPU.Noise.Shift ∧ noiseEnabledAPU.Noise.Shift ≤ 0x7FFF →
            (b.Noise.Shift ≠ a.Noise.Shift ↔ (k : Int) % P = 0)) :=
  ⟨noiseEnabledAPU_created _, by decide,
    Shift_updated_every_period (fun _ _ => 0) noiseEnabledAPU (noiseEnabledAPU_created _)
      (by decide) 0x00 (by decide)⟩

end Rp2ago3
